import Mathlib

/-!
# SMTP relay server: session engine, MX resolver, header normaliser, outbound relay

A shallow embedding of `SMTP-Server.cpp`.  A `std::string` is a list of characters
(one per byte); sockets, DNS and the clock are explicit inputs (`RelayEnv`, the
results of `recv`); everything the program writes to the client is returned as a
list of events.  A `none` result stands for an uncaught `std::out_of_range`.
-/

namespace SMTP

/-- The contents of a `std::string`, one `Char` per byte. -/
abbrev Bytes := List Char

/-- The two bytes `\r\n`. -/
def CRLF : Bytes := [Char.ofNat 13, Char.ofNat 10]

/-- The C function `toupper` in the "C" locale: `a`..`z` go to `A`..`Z`, every
other byte is returned as it is. -/
def toupper (c : Char) : Char :=
  if 97 ≤ c.toNat ∧ c.toNat ≤ 122 then Char.ofNat (c.toNat - 32) else c

/-- Search for `pat` in `s`, reporting the index `i` of the first match when the
head of `s` has index `i`. -/
def findAt (pat : Bytes) : Bytes → Nat → Option Nat
  | [], i => if pat = [] then some i else none
  | c :: cs, i => if pat.isPrefixOf (c :: cs) then some i else findAt pat cs (i + 1)

/-- The call `s.find(pat, pos)` of `std::string`; `none` is `npos`. -/
def findFrom (s pat : Bytes) (pos : Nat) : Option Nat :=
  if pos ≤ s.length then findAt pat (s.drop pos) pos else none

/-- The call `s.find(pat)` of `std::string`; `none` is `npos`. -/
def find (s pat : Bytes) : Option Nat := findFrom s pat 0

/-- The call `s.substr(pos)`; `none` is the exception thrown when `pos > s.size()`. -/
def substr (s : Bytes) (pos : Nat) : Option Bytes :=
  if pos ≤ s.length then some (s.drop pos) else none

/-- The call `s.substr(pos, n)`; `none` is the exception thrown when `pos > s.size()`. -/
def substrN (s : Bytes) (pos n : Nat) : Option Bytes :=
  if pos ≤ s.length then some ((s.drop pos).take n) else none

/-- The call `s.erase(pos, n)`; `none` is the exception thrown when `pos > s.size()`. -/
def erase (s : Bytes) (pos n : Nat) : Option Bytes :=
  if pos ≤ s.length then some (s.take pos ++ (s.drop pos).drop n) else none

/-- The call `to_string(now)` on a `time_t`: the decimal digits, with a sign when negative. -/
def to_string (n : Int) : Bytes :=
  if n < 0 then '-' :: Nat.toDigits 10 n.natAbs else Nat.toDigits 10 n.toNat

/-! ## MxResolver -/

/-- One `DNS_RECORD` of the list returned by `DnsQuery_W`: the record type, the
`WORD` preference of an MX record and its (nullable) exchange name. -/
structure DnsRecord where
  wType : Nat
  wPreference : Nat
  pNameExchange : Option Bytes
deriving DecidableEq, Repr

/-- The record type of MX records. -/
def DNS_TYPE_MX : Nat := 15

/-- The helper `WideToString`: a null pointer gives the empty string; the code-page conversion
is the identity on the byte strings modelled here. -/
def WideToString (wstr : Option Bytes) : Bytes :=
  match wstr with
  | none => []
  | some w => w

/-- The `while (pRec)` loop of `getMxRecord`, with its two locals `bestMx` and
`bestPreference`. -/
def mxLoop : List DnsRecord → Bytes → Nat → Bytes
  | [], bestMx, _ => bestMx
  | pRec :: pNext, bestMx, bestPreference =>
    if pRec.wType = DNS_TYPE_MX then
      if pRec.wPreference < bestPreference then
        mxLoop pNext (WideToString pRec.pNameExchange) pRec.wPreference
      else mxLoop pNext bestMx bestPreference
    else mxLoop pNext bestMx bestPreference

/-- The last statement of `getMxRecord`: `if (!bestMx.empty() && bestMx.back() == '.') bestMx.pop_back()`. -/
def popTrailingDot (bestMx : Bytes) : Bytes :=
  if bestMx ≠ [] ∧ bestMx.getLast? = some '.' then bestMx.dropLast else bestMx

/-- The name a C function reads from `s.c_str()`: the bytes of `s` before its
first NUL byte, all of `s` when it has none. -/
def c_str (s : Bytes) : Bytes :=
  s.takeWhile fun c => c ≠ Char.ofNat 0

/-- The function `getMxRecord`; `dnsQuery` is `DnsQuery_W` for MX records, returning its status
and its record list.  It is called with `wdomain.c_str()`, so it sees the domain
up to its first NUL byte. -/
def getMxRecord (dnsQuery : Bytes → Int × List DnsRecord) (domain : Bytes) : Bytes :=
  if (dnsQuery (c_str domain)).1 ≠ 0 then []
  else popTrailingDot (mxLoop (dnsQuery (c_str domain)).2 [] 0xFFFFFFFF)

/-! ## HeaderNormalizer -/

/-- The header insertion of `relayEmail` (the two conditional prepends), `now`
being the value of `time(nullptr)`. -/
def normalizeHeaders (mailFrom emailData : Bytes) (now : Int) : Bytes :=
  let e1 :=
    if find emailData "From:".toList = none ∧ find emailData "from:".toList = none then
      "From: ".toList ++ mailFrom ++ CRLF ++ emailData
    else emailData
  if find e1 "Message-ID:".toList = none ∧ find e1 "message-id:".toList = none then
    "Message-ID: ".toList ++ ("<".toList ++ to_string now ++ ".relay@localhost>".toList) ++ CRLF ++ e1
  else e1

/-! ## OutboundRelayClient -/

/-- What the network and the clock do during one call of `relayEmail`.
`send k cmd` tells whether the `k`-th `send` on the relay socket succeeds;
`recv k` is the result of the `k`-th `recv` on it (`none` for `SOCKET_ERROR`,
otherwise the bytes read, none of them on a closed connection). -/
structure RelayEnv where
  dnsQuery : Bytes → Int × List DnsRecord
  socket : Bool
  getaddrinfo : Bytes → Bool
  connect : Bool
  send : Nat → Bytes → Bool
  recv : Nat → Option Bytes
  now : Int

/-- The test `len <= 0` on the result of a `recv`. -/
def recvFailed (r : Option Bytes) : Bool :=
  match r with
  | none => true
  | some b => b.length = 0

/-- The function `sendCommand`, called for the `k`-th command of the conversation.  Returns the
success flag and what went out on the socket: `[cmd]` when the `send` went
through, nothing otherwise.  The response is only printed. -/
def sendCommand (env : RelayEnv) (k : Nat) (cmd : Bytes) : Bool × List Bytes :=
  if env.send k cmd = false then (false, [])
  else if recvFailed (env.recv (k + 1)) then (false, [cmd])
  else (true, [cmd])

/-- The result of `relayEmail` and the byte strings it sent to the remote server. -/
structure RelayResult where
  ok : Bool
  sent : List Bytes
deriving DecidableEq, Repr

/-- The domain extraction at the start of `relayEmail`, given the position of the
`@`.  The local `start` of the source is computed and never used. -/
def extractDomain (rcptTo : Bytes) (atPos : Nat) : Option Bytes :=
  match findFrom rcptTo ['>'] atPos with
  | none => substr rcptTo (atPos + 1)
  | some e => substrN rcptTo (atPos + 1) (e - atPos - 1)

/-- The part of `relayEmail` that follows the domain extraction: resolution,
connection, banner, the SMTP conversation with the header insertion before the
body is sent. -/
def relayToDomain (env : RelayEnv) (domain mailFrom rcptTo emailData : Bytes) : RelayResult :=
  let mxHost := getMxRecord env.dnsQuery domain
  if mxHost = [] then ⟨false, []⟩
  else if env.socket = false then ⟨false, []⟩
  else if env.getaddrinfo mxHost = false then ⟨false, []⟩
  else if env.connect = false then ⟨false, []⟩
  else if recvFailed (env.recv 0) then ⟨false, []⟩
  else
    let helo := "HELO localhost".toList ++ CRLF
    let r1 := sendCommand env 0 helo
    if r1.1 = false then ⟨false, r1.2⟩ else
    let mail := "MAIL FROM:".toList ++ mailFrom ++ CRLF
    let r2 := sendCommand env 1 mail
    if r2.1 = false then ⟨false, [helo] ++ r2.2⟩ else
    let rcpt := "RCPT TO:".toList ++ rcptTo ++ CRLF
    let r3 := sendCommand env 2 rcpt
    if r3.1 = false then ⟨false, [helo, mail] ++ r3.2⟩ else
    let data := "DATA".toList ++ CRLF
    let r4 := sendCommand env 3 data
    if r4.1 = false then ⟨false, [helo, mail, rcpt] ++ r4.2⟩ else
    let dataToSend := normalizeHeaders mailFrom emailData env.now ++ (CRLF ++ '.' :: CRLF)
    let r5 := sendCommand env 4 dataToSend
    if r5.1 = false then ⟨false, [helo, mail, rcpt, data] ++ r5.2⟩ else
    let quit := "QUIT".toList ++ CRLF
    let r6 := sendCommand env 5 quit
    if r6.1 = false then ⟨false, [helo, mail, rcpt, data, dataToSend] ++ r6.2⟩ else
    ⟨true, [helo, mail, rcpt, data, dataToSend, quit]⟩

/-- The function `relayEmail`: the `@` test and the domain extraction, then
`relayToDomain`. -/
def relayEmail (env : RelayEnv) (mailFrom rcptTo emailData : Bytes) : Option RelayResult :=
  match find rcptTo ['@'] with
  | none => some ⟨false, []⟩
  | some atPos =>
    match extractDomain rcptTo atPos with
    | none => none
    | some domain => some (relayToDomain env domain mailFrom rcptTo emailData)

/-! ## SessionEngine -/

/-- The locals of `main` that make up a session: the transaction (`dataMode`,
`mailFrom`, `rcptTo`, `emailData`), the input buffer and the `running` flag.
`relayAttempts` counts the calls of `relayEmail` made so far; it selects the
network behaviour the next call meets. -/
structure Session where
  dataMode : Bool
  mailFrom : Bytes
  rcptTo : Bytes
  emailData : Bytes
  commandBuffer : Bytes
  running : Bool
  relayAttempts : Nat
deriving DecidableEq, Repr

/-- What one input line makes the server do: a reply written to the client
socket, or a call of `relayEmail` with its arguments and its result. -/
inductive Event where
  | reply (bytes : Bytes)
  | relay (mailFrom rcptTo emailData : Bytes) (ok : Bool)
deriving DecidableEq, Repr

/-- The state of `main` after the greeting has been sent. -/
def initial : Session :=
  { dataMode := false, mailFrom := [], rcptTo := [], emailData := [],
    commandBuffer := [], running := true, relayAttempts := 0 }

/-- The reply to `HELO` and `EHLO`. -/
def reply250Hello : Bytes := "250 Hello\r\n".toList
/-- The reply to `MAIL FROM:`, `RCPT TO:`, `RSET` and `NOOP`. -/
def reply250OK : Bytes := "250 OK\r\n".toList
/-- The reply after a successful relay. -/
def reply250Relayed : Bytes := "250 OK: Email relayed\r\n".toList
/-- The reply after a failed relay. -/
def reply550 : Bytes := "550 Failed to relay email\r\n".toList
/-- The reply to a `DATA` that comes too early. -/
def reply503 : Bytes := "503 Bad sequence of commands\r\n".toList
/-- The reply to an accepted `DATA`. -/
def reply354 : Bytes := "354 End data with <CR><LF>.<CR><LF>\r\n".toList
/-- The reply to `QUIT`. -/
def reply221 : Bytes := "221 Bye\r\n".toList
/-- The reply to any other line. -/
def reply500 : Bytes := "500 Unrecognized command\r\n".toList

/-- The body of the inner `while` loop of `main` for one extracted `line`:
`net k` is the network behaviour met by the `k`-th call of `relayEmail`. -/
def processLine (net : Nat → RelayEnv) (s : Session) (line : Bytes) :
    Option (Session × List Event) :=
  if s.dataMode then
    if line = ['.'] then
      match relayEmail (net s.relayAttempts) s.mailFrom s.rcptTo s.emailData with
      | none => none
      | some r =>
        some ({ s with dataMode := false, mailFrom := [], rcptTo := [], emailData := [],
                       relayAttempts := s.relayAttempts + 1 },
              [Event.relay s.mailFrom s.rcptTo s.emailData r.ok,
               Event.reply (if r.ok then reply250Relayed else reply550)])
    else some ({ s with emailData := s.emailData ++ line ++ CRLF }, [])
  else
    let cmdUpper := line.map toupper
    if find cmdUpper "HELO".toList = some 0 ∨ find cmdUpper "EHLO".toList = some 0 then
      some (s, [Event.reply reply250Hello])
    else if find cmdUpper "MAIL FROM:".toList = some 0 then
      match substr line 10 with
      | none => none
      | some a => some ({ s with mailFrom := a }, [Event.reply reply250OK])
    else if find cmdUpper "RCPT TO:".toList = some 0 then
      match substr line 8 with
      | none => none
      | some a => some ({ s with rcptTo := a }, [Event.reply reply250OK])
    else if cmdUpper = "DATA".toList then
      if s.mailFrom = [] ∨ s.rcptTo = [] then some (s, [Event.reply reply503])
      else some ({ s with dataMode := true }, [Event.reply reply354])
    else if cmdUpper = "RSET".toList then
      some ({ s with mailFrom := [], rcptTo := [], emailData := [], dataMode := false },
            [Event.reply reply250OK])
    else if cmdUpper = "NOOP".toList then some (s, [Event.reply reply250OK])
    else if cmdUpper = "QUIT".toList then
      some ({ s with running := false }, [Event.reply reply221])
    else some (s, [Event.reply reply500])

/-- The lines processed, each with what it made the server do. -/
abbrev Trace := List (Bytes × List Event)

/-- The inner loop `while ((pos = commandBuffer.find("\r\n")) != npos)`, at most
`fuel` iterations; the loop is left when `QUIT` has cleared `running`. -/
def drainLoop (net : Nat → RelayEnv) : Nat → Session → Option (Session × Trace)
  | 0, s => some (s, [])
  | fuel + 1, s =>
    match find s.commandBuffer CRLF with
    | none => some (s, [])
    | some pos =>
      match substrN s.commandBuffer 0 pos with
      | none => none
      | some line =>
        match erase s.commandBuffer 0 (pos + 2) with
        | none => none
        | some rest =>
          match processLine net { s with commandBuffer := rest } line with
          | none => none
          | some (s1, ev) =>
            if s1.running then
              match drainLoop net fuel s1 with
              | none => none
              | some (s2, tr) => some (s2, (line, ev) :: tr)
            else some (s1, [(line, ev)])

/-- The inner loop run to its end: every iteration removes at least two bytes, so
as many iterations as the buffer has bytes are enough. -/
def drain (net : Nat → RelayEnv) (s : Session) : Option (Session × Trace) :=
  drainLoop net s.commandBuffer.length s

/-- One iteration of `while (running)`: `r` is what `recv` returned (`none` for
an error, `some []` for a closed connection, otherwise the bytes read; the
program reads at most `BUFFER_SIZE` bytes at a time, no bound is put here). -/
def recvStep (net : Nat → RelayEnv) (s : Session) (r : Option Bytes) :
    Option (Session × Trace) :=
  match r with
  | none => some ({ s with running := false }, [])
  | some chunk =>
    if chunk.length > 0 then drain net { s with commandBuffer := s.commandBuffer ++ chunk }
    else some ({ s with running := false }, [])

/-- The loop `while (running)` over the successive results of `recv`. -/
def serve (net : Nat → RelayEnv) : Session → List (Option Bytes) → Option (Session × Trace)
  | s, [] => some (s, [])
  | s, r :: rs =>
    if s.running then
      match recvStep net s r with
      | none => none
      | some (s1, t1) =>
        match serve net s1 rs with
        | none => none
        | some (s2, t2) => some (s2, t1 ++ t2)
    else some (s, [])

/-- The per-line step iterated over lines already split: the inner loop seen
from its lines. -/
def processLines (net : Nat → RelayEnv) : Session → List Bytes → Option (Session × List Event)
  | s, [] => some (s, [])
  | s, line :: rest =>
    match processLine net s line with
    | none => none
    | some (s1, ev) =>
      if s1.running then
        match processLines net s1 rest with
        | none => none
        | some (s2, evs) => some (s2, ev ++ evs)
      else some (s1, ev)

/-- The session states reached from `initial` by processing lines while the
session is running. -/
inductive Reachable (net : Nat → RelayEnv) : Session → Prop where
  | init : Reachable net initial
  | step (s s1 : Session) (line : Bytes) (ev : List Event) :
      Reachable net s → s.running = true → processLine net s line = some (s1, ev) →
      Reachable net s1

/-- The eight command keywords of the dispatch chain, in upper case. -/
def keywords : List Bytes :=
  ["HELO".toList, "EHLO".toList, "MAIL FROM:".toList, "RCPT TO:".toList,
   "DATA".toList, "RSET".toList, "NOOP".toList, "QUIT".toList]

/-- A network on which every DNS query fails. -/
def netDown : Nat → RelayEnv := fun _ =>
  { dnsQuery := fun _ => (9003, []), socket := true, getaddrinfo := fun _ => false,
    connect := false, send := fun _ _ => false, recv := fun _ => none, now := 0 }

/-- A network on which every domain has the MX records `(A, 20), (B, 10), (C, 10)`
and every socket operation succeeds, each reply being `250 OK`. -/
def netUp : Nat → RelayEnv := fun _ =>
  { dnsQuery := fun _ => (0, [⟨DNS_TYPE_MX, 20, some "A".toList⟩, ⟨DNS_TYPE_MX, 10, some "B".toList⟩,
                              ⟨DNS_TYPE_MX, 10, some "C".toList⟩]),
    socket := true, getaddrinfo := fun _ => true, connect := true,
    send := fun _ _ => true, recv := fun _ => some reply250OK, now := 1700000000 }

/-- A session in the middle of a `DATA` capture. -/
def capturing : Session :=
  { dataMode := true, mailFrom := "<a@x.com>".toList, rcptTo := "<b@y.com>".toList,
    emailData := "Hello\r\n".toList, commandBuffer := [], running := true, relayAttempts := 0 }

/-- A session in command mode with both envelope addresses set. -/
def addressed : Session :=
  { dataMode := false, mailFrom := "<a@x.com>".toList, rcptTo := "<b@y.com>".toList,
    emailData := [], commandBuffer := [], running := true, relayAttempts := 0 }

/-- The lines `L1 .. Ln`, each followed by CRLF, one after another. -/
def joinLines : List Bytes → Bytes
  | [] => []
  | l :: ls => l ++ CRLF ++ joinLines ls

/-- The two facts that hold of a session between two lines: data capture is
entered only with both addresses set, and outside data capture the body is empty. -/
def Consistent (s : Session) : Prop :=
  (s.dataMode = true → s.mailFrom ≠ [] ∧ s.rcptTo ≠ []) ∧ (s.dataMode = false → s.emailData = [])

/-- The MX records of a record list, in list order. -/
def mxRecords (recs : List DnsRecord) : List DnsRecord :=
  recs.filter fun r => r.wType = DNS_TYPE_MX

/-- Whether some line of `body` (lines end with CRLF) begins with `name`, letter
case ignored: `body` begins with `name`, or `name` follows a CRLF in it. -/
def hasHeaderLine (name body : Bytes) : Bool :=
  (name.map toupper).isPrefixOf (body.map toupper) ||
    (find (body.map toupper) (CRLF ++ name.map toupper)).isSome

/-- The chunks of a byte string put back together. -/
def joinChunks : List Bytes → Bytes
  | [] => []
  | c :: cs => c ++ joinChunks cs

/-- Two sessions that differ at most in their input buffer. -/
def sameTransaction (a b : Session) : Prop :=
  a.dataMode = b.dataMode ∧ a.mailFrom = b.mailFrom ∧ a.rcptTo = b.rcptTo ∧
    a.emailData = b.emailData ∧ a.running = b.running ∧ a.relayAttempts = b.relayAttempts

/-- The six byte strings of the conversation of `relayEmail`, in the order in
which they are sent; `now` is the clock value used for a generated Message-ID. -/
def commandSequence (mailFrom rcptTo emailData : Bytes) (now : Int) : List Bytes :=
  ["HELO localhost".toList ++ CRLF, "MAIL FROM:".toList ++ mailFrom ++ CRLF,
   "RCPT TO:".toList ++ rcptTo ++ CRLF, "DATA".toList ++ CRLF,
   normalizeHeaders mailFrom emailData now ++ (CRLF ++ '.' :: CRLF), "QUIT".toList ++ CRLF]

/-- A list of commands handed to `sendCommand` one after another, the first one
as the `k`-th command, up to and including the first one that fails: the
success flag and what went out on the socket. -/
def sendAll (env : RelayEnv) : Nat → List Bytes → Bool × List Bytes
  | _, [] => (true, [])
  | k, cmd :: rest =>
    if (sendCommand env k cmd).1 = false then (false, (sendCommand env k cmd).2)
    else ((sendAll env (k + 1) rest).1, cmd :: (sendAll env (k + 1) rest).2)

/-- A network like `netUp` on which the remote server answers `RCPT TO` (the
third command) with a `550` rejection. -/
def netRejecting : RelayEnv :=
  { netUp 0 with recv := fun k => if k = 3 then some "550 No such user\r\n".toList
                                   else some reply250OK }

/-- The number of replies among the events of one line. -/
def replyCount (ev : List Event) : Nat :=
  (ev.filter fun e => match e with
    | Event.reply _ => true
    | Event.relay _ _ _ _ => false).length

/-- A network like `netUp` whose resolver knows the one name `y.com` and fails for
every other name. -/
def netOnlyY : RelayEnv :=
  { netUp 0 with
    dnsQuery := fun name =>
      if name = "y.com".toList then (0, [⟨DNS_TYPE_MX, 10, some "mx.y.com.".toList⟩])
      else (9003, []) }

/-- Whether `main` receives every chunk of the list: the session is running each
time `recv` is called for one of them, that is, no `QUIT` was processed before
the last chunk is read. -/
def allRead (net : Nat → RelayEnv) : Session → List Bytes → Bool
  | _, [] => true
  | s, c :: cs =>
    s.running &&
      match recvStep net s (some c) with
      | none => false
      | some (s1, _) => allRead net s1 cs

/-! ## Facts about `find` -/

theorem find_eq_findAt (s pat : Bytes) : find s pat = findAt pat s 0 := by
  simp [find, findFrom]

theorem findAt_shift (pat : Bytes) (s : Bytes) (i : Nat) :
    findAt pat s i = (findAt pat s 0).map (fun p => p + i) := by
  induction s generalizing i with
  | nil => by_cases h : pat = [] <;> simp [findAt, h]
  | cons c cs ih =>
    by_cases h : pat.isPrefixOf (c :: cs) = true
    · simp [findAt, h]
    · rw [findAt, findAt, if_neg h, if_neg h, ih (i + 1), ih (0 + 1)]
      cases findAt pat cs 0 <;> simp [Nat.add_comm, Nat.add_left_comm]

theorem findAt_bound (pat : Bytes) (s : Bytes) (i p : Nat) (h : findAt pat s i = some p) :
    i ≤ p ∧ p + pat.length ≤ i + s.length ∧ pat <+: s.drop (p - i) := by
  induction s generalizing i with
  | nil =>
    by_cases hp : pat = []
    · simp [findAt, hp] at h
      subst h; simp [hp]
    · simp [findAt, hp] at h
  | cons c cs ih =>
    by_cases hp : pat.isPrefixOf (c :: cs) = true
    · simp only [findAt, hp, if_true, Option.some.injEq] at h
      subst h
      have hpre : pat <+: c :: cs := List.isPrefixOf_iff_prefix.mp hp
      refine ⟨le_refl _, ?_, by simpa using hpre⟩
      have := hpre.length_le
      omega
    · rw [findAt, if_neg hp] at h
      obtain ⟨h1, h2, h3⟩ := ih (i + 1) h
      refine ⟨by omega, by simp only [List.length_cons]; omega, ?_⟩
      have e : p - i = (p - (i + 1)) + 1 := by omega
      rw [e, List.drop_succ_cons]
      exact h3

theorem find_zero_iff (s pat : Bytes) : find s pat = some 0 ↔ pat <+: s := by
  rw [find_eq_findAt]
  cases s with
  | nil =>
    by_cases hp : pat = [] <;> simp [findAt, hp]
  | cons c cs =>
    by_cases hp : pat.isPrefixOf (c :: cs) = true
    · simp only [findAt, hp, if_true, true_iff]
      exact List.isPrefixOf_iff_prefix.mp hp
    · rw [findAt, if_neg hp]
      constructor
      · intro h
        have := (findAt_bound pat cs 1 0 h).1
        omega
      · intro h
        exact absurd (List.isPrefixOf_iff_prefix.mpr h) hp

theorem findAt_ne_none_iff (pat s : Bytes) (i : Nat) : findAt pat s i ≠ none ↔ pat <:+: s := by
  induction s generalizing i with
  | nil =>
    by_cases hp : pat = []
    · simp [findAt, hp]
    · simp [findAt, hp]
  | cons c cs ih =>
    by_cases hp : pat.isPrefixOf (c :: cs) = true
    · simp only [findAt, hp, if_true, ne_eq, not_false_eq_true, true_iff, reduceCtorEq]
      exact (List.isPrefixOf_iff_prefix.mp hp).isInfix
    · rw [findAt, if_neg hp, ih (i + 1), List.infix_cons_iff]
      constructor
      · exact fun h => Or.inr h
      · rintro (h | h)
        · exact absurd (List.isPrefixOf_iff_prefix.mpr h) hp
        · exact h

theorem find_ne_none_iff (s pat : Bytes) : find s pat ≠ none ↔ pat <:+: s := by
  rw [find_eq_findAt]; exact findAt_ne_none_iff pat s 0

theorem find_eq_none_iff (s pat : Bytes) : find s pat = none ↔ ¬ pat <:+: s := by
  rw [← find_ne_none_iff]; simp

/-! ## `relayEmail` and `processLine` always return -/

theorem extractDomain_some (rcptTo : Bytes) (atPos : Nat) (h : find rcptTo ['@'] = some atPos) :
    ∃ d, extractDomain rcptTo atPos = some d := by
  rw [find_eq_findAt] at h
  have hb := (findAt_bound _ _ _ _ h).2.1
  simp only [List.length_singleton] at hb
  have hle : atPos + 1 ≤ rcptTo.length := by omega
  unfold extractDomain
  cases findFrom rcptTo ['>'] atPos <;> simp [substr, substrN, hle]

theorem relayEmail_some (env : RelayEnv) (mailFrom rcptTo emailData : Bytes) :
    ∃ r, relayEmail env mailFrom rcptTo emailData = some r := by
  unfold relayEmail
  cases h : find rcptTo ['@'] with
  | none => exact ⟨_, rfl⟩
  | some atPos =>
    obtain ⟨d, hd⟩ := extractDomain_some rcptTo atPos h
    simp only [hd]
    exact ⟨_, rfl⟩

theorem substr_when_matched (line pat : Bytes) (n : Nat) (hn : pat.length = n)
    (h : find (line.map toupper) pat = some 0) : substr line n = some (line.drop n) := by
  have hp := ((find_zero_iff _ _).mp h).length_le
  simp only [List.length_map] at hp
  simp [substr, ← hn, hp]

theorem processLine_some (net : Nat → RelayEnv) (s : Session) (line : Bytes) :
    ∃ r, processLine net s line = some r := by
  unfold processLine
  by_cases hd : s.dataMode = true
  · simp only [hd, if_true]
    by_cases hl : line = ['.']
    · obtain ⟨r, hr⟩ := relayEmail_some (net s.relayAttempts) s.mailFrom s.rcptTo s.emailData
      simp only [hl, if_true, hr]
      exact ⟨_, rfl⟩
    · simp only [hl, if_false]
      exact ⟨_, rfl⟩
  · rw [if_neg hd]
    dsimp only
    split_ifs
    all_goals first
      | (rw [substr_when_matched line "RCPT TO:".toList 8 rfl (by assumption)]; exact ⟨_, rfl⟩)
      | (rw [substr_when_matched line "MAIL FROM:".toList 10 rfl (by assumption)]; exact ⟨_, rfl⟩)
      | exact ⟨_, rfl⟩

theorem processLine_congr (net : Nat → RelayEnv) (s : Session) (l1 l2 : Bytes)
    (hmode : s.dataMode = false) (hU : l1.map toupper = l2.map toupper)
    (h10 : find (l2.map toupper) "MAIL FROM:".toList = some 0 → substr l1 10 = substr l2 10)
    (h8 : ¬ find (l2.map toupper) "MAIL FROM:".toList = some 0 →
      find (l2.map toupper) "RCPT TO:".toList = some 0 → substr l1 8 = substr l2 8) :
    processLine net s l1 = processLine net s l2 := by
  unfold processLine
  rw [hmode]
  simp only [Bool.false_eq_true, if_false, hU]
  split_ifs with h1 h2 h3
  · rfl
  · rw [h10 h2]
  · rw [h8 h2 h3]
  all_goals rfl

theorem substr_append_of_le (a b rest : Bytes) (n : Nat) (hlen : a.length = b.length)
    (hn : b.length ≤ n) : substr (a ++ rest) n = substr (b ++ rest) n := by
  have ha : a.length ≤ n := hlen ▸ hn
  simp [substr, List.drop_append_eq_append_drop, List.drop_eq_nil_of_le ha,
    List.drop_eq_nil_of_le hn, hlen]

theorem sendCommand_ok (env : RelayEnv) (k : Nat) (cmd : Bytes)
    (h : ¬ (sendCommand env k cmd).1 = false) :
    env.send k cmd = true ∧ recvFailed (env.recv (k + 1)) = false := by
  unfold sendCommand at h
  split_ifs at h with h1 h2
  · exact absurd rfl h
  · exact absurd rfl h
  · exact ⟨by simpa using h1, by simpa using h2⟩

theorem ok_of_ite {c : Prop} [Decidable c] {x : List Bytes} {r : RelayResult}
    (h : (if c then (⟨false, x⟩ : RelayResult) else r).ok = true) : ¬ c ∧ r.ok = true := by
  by_cases hc : c
  · rw [if_pos hc] at h; exact absurd h (by simp)
  · rw [if_neg hc] at h; exact ⟨hc, h⟩

/-- What a successful relay needs: a resolved host, a socket, an address, a
connection, a banner, and six commands each sent and answered. -/
theorem relayToDomain_ok (env : RelayEnv) (domain mailFrom rcptTo emailData : Bytes)
    (h : (relayToDomain env domain mailFrom rcptTo emailData).ok = true) :
    getMxRecord env.dnsQuery domain ≠ [] ∧ env.socket = true ∧
      env.getaddrinfo (getMxRecord env.dnsQuery domain) = true ∧ env.connect = true ∧
      recvFailed (env.recv 0) = false ∧
      ∀ k, k < 6 → (∃ cmd, env.send k cmd = true) ∧ recvFailed (env.recv (k + 1)) = false := by
  unfold relayToDomain at h
  dsimp only at h
  obtain ⟨h0, h⟩ := ok_of_ite h
  obtain ⟨h1, h⟩ := ok_of_ite h
  obtain ⟨h2, h⟩ := ok_of_ite h
  obtain ⟨h3, h⟩ := ok_of_ite h
  obtain ⟨h4, h⟩ := ok_of_ite h
  obtain ⟨c1, h⟩ := ok_of_ite h
  obtain ⟨c2, h⟩ := ok_of_ite h
  obtain ⟨c3, h⟩ := ok_of_ite h
  obtain ⟨c4, h⟩ := ok_of_ite h
  obtain ⟨c5, h⟩ := ok_of_ite h
  obtain ⟨c6, -⟩ := ok_of_ite h
  refine ⟨h0, by simpa using h1, by simpa using h2, by simpa using h3, by simpa using h4, ?_⟩
  intro k hk
  have e1 := sendCommand_ok env _ _ c1
  have e2 := sendCommand_ok env _ _ c2
  have e3 := sendCommand_ok env _ _ c3
  have e4 := sendCommand_ok env _ _ c4
  have e5 := sendCommand_ok env _ _ c5
  have e6 := sendCommand_ok env _ _ c6
  interval_cases k
  · exact ⟨⟨_, e1.1⟩, e1.2⟩
  · exact ⟨⟨_, e2.1⟩, e2.2⟩
  · exact ⟨⟨_, e3.1⟩, e3.2⟩
  · exact ⟨⟨_, e4.1⟩, e4.2⟩
  · exact ⟨⟨_, e5.1⟩, e5.2⟩
  · exact ⟨⟨_, e6.1⟩, e6.2⟩

/-- A relay reported as successful had an `@` in `rcptTo` and met no failure. -/
theorem relayEmail_ok (env : RelayEnv) (mailFrom rcptTo emailData : Bytes) (r : RelayResult)
    (hr : relayEmail env mailFrom rcptTo emailData = some r) (h : r.ok = true) :
    find rcptTo ['@'] ≠ none ∧ (∃ domain, getMxRecord env.dnsQuery domain ≠ []) ∧
      env.socket = true ∧ env.connect = true ∧ recvFailed (env.recv 0) = false ∧
      ∀ k, k < 6 → (∃ cmd, env.send k cmd = true) ∧ recvFailed (env.recv (k + 1)) = false := by
  unfold relayEmail at hr
  cases hf : find rcptTo ['@'] with
  | none =>
    rw [hf] at hr
    simp only [Option.some.injEq] at hr
    subst hr
    exact absurd h (by decide)
  | some atPos =>
    rw [hf] at hr
    dsimp only at hr
    cases hd : extractDomain rcptTo atPos with
    | none => rw [hd] at hr; exact absurd hr (by simp)
    | some domain =>
      rw [hd] at hr
      simp only [Option.some.injEq] at hr
      subst hr
      obtain ⟨a, b, _, d, e, f⟩ := relayToDomain_ok env domain mailFrom rcptTo emailData h
      exact ⟨by simp, ⟨domain, a⟩, b, d, e, f⟩

/-! ## The resolver loop -/

theorem mxLoop_spec (recs : List DnsRecord) :
    ∀ (bestMx : Bytes) (bestPreference : Nat),
      ((∀ r ∈ mxRecords recs, bestPreference ≤ r.wPreference) ∧
          mxLoop recs bestMx bestPreference = bestMx) ∨
        ∃ pre m post, mxRecords recs = pre ++ m :: post ∧ m.wPreference < bestPreference ∧
          (∀ r ∈ pre, m.wPreference < r.wPreference) ∧
          (∀ r ∈ post, m.wPreference ≤ r.wPreference) ∧
          mxLoop recs bestMx bestPreference = WideToString m.pNameExchange := by
  induction recs with
  | nil => intro bm bp; left; simp [mxRecords, mxLoop]
  | cons x xs ih =>
    intro bm bp
    by_cases hx : x.wType = DNS_TYPE_MX
    · have hf : mxRecords (x :: xs) = x :: mxRecords xs := by simp [mxRecords, hx]
      by_cases hlt : x.wPreference < bp
      · have hl : mxLoop (x :: xs) bm bp =
            mxLoop xs (WideToString x.pNameExchange) x.wPreference := by
          rw [mxLoop, if_pos hx, if_pos hlt]
        rcases ih (WideToString x.pNameExchange) x.wPreference with ⟨hall, hres⟩ |
            ⟨pre, m, post, hsplit, hm, hpre, hpost, hres⟩
        · right
          exact ⟨[], x, mxRecords xs, by rw [hf]; rfl, hlt, by simp, hall, by rw [hl, hres]⟩
        · right
          refine ⟨x :: pre, m, post, by rw [hf, hsplit]; rfl, lt_trans hm hlt, ?_, hpost,
            by rw [hl, hres]⟩
          intro r hr
          rcases List.mem_cons.mp hr with h | h
          · rw [h]; exact hm
          · exact hpre r h
      · have hl : mxLoop (x :: xs) bm bp = mxLoop xs bm bp := by
          rw [mxLoop, if_pos hx, if_neg hlt]
        rcases ih bm bp with ⟨hall, hres⟩ | ⟨pre, m, post, hsplit, hm, hpre, hpost, hres⟩
        · left
          refine ⟨?_, by rw [hl, hres]⟩
          intro r hr
          rw [hf] at hr
          rcases List.mem_cons.mp hr with h | h
          · rw [h]; exact Nat.le_of_not_lt hlt
          · exact hall r h
        · right
          refine ⟨x :: pre, m, post, by rw [hf, hsplit]; rfl, hm, ?_, hpost, by rw [hl, hres]⟩
          intro r hr
          rcases List.mem_cons.mp hr with h | h
          · rw [h]; exact lt_of_lt_of_le hm (Nat.le_of_not_lt hlt)
          · exact hpre r h
    · have hf : mxRecords (x :: xs) = mxRecords xs := by simp [mxRecords, hx]
      have hl : mxLoop (x :: xs) bm bp = mxLoop xs bm bp := by
        rw [mxLoop, if_neg hx]
      rw [hf, hl]
      exact ih bm bp

theorem popTrailingDot_dot (h : Bytes) : popTrailingDot (h ++ ['.']) = h := by
  simp [popTrailingDot]

theorem popTrailingDot_other (host : Bytes) (hno : ∀ h, host ≠ h ++ ['.']) :
    popTrailingDot host = host := by
  unfold popTrailingDot
  rw [if_neg]
  rintro ⟨hne, hlast⟩
  apply hno host.dropLast
  have h2 := List.dropLast_append_getLast? '.' (by simpa using hlast)
  exact h2.symm

/-! ## The header insertion -/

theorem normalizeHeaders_present (mailFrom body : Bytes) (now : Int)
    (hfrom : "From:".toList <:+: body ∨ "from:".toList <:+: body)
    (hid : "Message-ID:".toList <:+: body ∨ "message-id:".toList <:+: body) :
    normalizeHeaders mailFrom body now = body := by
  have h1 : ¬ (find body "From:".toList = none ∧ find body "from:".toList = none) := by
    rw [find_eq_none_iff, find_eq_none_iff]; tauto
  have h2 : ¬ (find body "Message-ID:".toList = none ∧ find body "message-id:".toList = none) := by
    rw [find_eq_none_iff, find_eq_none_iff]; tauto
  unfold normalizeHeaders
  dsimp only
  rw [if_neg h1, if_neg h2]

theorem isInfix_prepend (pat pre body : Bytes) (h : pat <:+: body) : pat <:+: pre ++ body :=
  h.trans (List.suffix_append pre body).isInfix

theorem normalizeHeaders_from (mailFrom body : Bytes) (now : Int) :
    "From:".toList <:+: normalizeHeaders mailFrom body now ∨
      "from:".toList <:+: normalizeHeaders mailFrom body now := by
  have key : ∀ e1 : Bytes, ("From:".toList <:+: e1 ∨ "from:".toList <:+: e1) →
      ("From:".toList <:+:
          (if find e1 "Message-ID:".toList = none ∧ find e1 "message-id:".toList = none then
            "Message-ID: ".toList ++ ("<".toList ++ to_string now ++ ".relay@localhost>".toList)
              ++ CRLF ++ e1
          else e1) ∨
        "from:".toList <:+:
          (if find e1 "Message-ID:".toList = none ∧ find e1 "message-id:".toList = none then
            "Message-ID: ".toList ++ ("<".toList ++ to_string now ++ ".relay@localhost>".toList)
              ++ CRLF ++ e1
          else e1)) := by
    intro e1 h
    split_ifs
    · exact h.imp (isInfix_prepend _ _ _) (isInfix_prepend _ _ _)
    · exact h
  unfold normalizeHeaders
  dsimp only
  apply key
  split_ifs with hc
  · left
    exact ⟨[], ' ' :: (mailFrom ++ CRLF ++ body), rfl⟩
  · rw [find_eq_none_iff, find_eq_none_iff] at hc
    tauto

theorem normalizeHeaders_messageId (mailFrom body : Bytes) (now : Int) :
    "Message-ID:".toList <:+: normalizeHeaders mailFrom body now ∨
      "message-id:".toList <:+: normalizeHeaders mailFrom body now := by
  unfold normalizeHeaders
  dsimp only
  split_ifs with h1 h2 h2
  · left
    exact ⟨[], ' ' :: ("<".toList ++ to_string now ++ ".relay@localhost>".toList ++ CRLF ++
      ("From: ".toList ++ mailFrom ++ CRLF ++ body)), rfl⟩
  · rw [find_eq_none_iff, find_eq_none_iff] at h2
    tauto
  · left
    exact ⟨[], ' ' :: ("<".toList ++ to_string now ++ ".relay@localhost>".toList ++ CRLF ++ body),
      rfl⟩
  · rw [find_eq_none_iff, find_eq_none_iff] at h2
    tauto

/-! ## What holds between two lines -/

theorem processLine_consistent (net : Nat → RelayEnv) (s s1 : Session) (line : Bytes)
    (ev : List Event) (hs : Consistent s) (h : processLine net s line = some (s1, ev)) :
    Consistent s1 := by
  unfold processLine at h
  by_cases hd : s.dataMode = true
  · rw [if_pos hd] at h
    by_cases hl : line = ['.']
    · rw [if_pos hl] at h
      cases hr : relayEmail (net s.relayAttempts) s.mailFrom s.rcptTo s.emailData with
      | none => rw [hr] at h; exact absurd h (by simp)
      | some r =>
        rw [hr] at h
        simp only [Option.some.injEq, Prod.mk.injEq] at h
        rw [← h.1]
        exact ⟨fun c => absurd c (by simp), fun _ => rfl⟩
    · rw [if_neg hl] at h
      simp only [Option.some.injEq, Prod.mk.injEq] at h
      rw [← h.1]
      exact ⟨fun _ => hs.1 hd, fun c => absurd (hd.symm.trans c) (by simp)⟩
  · have hd0 : s.dataMode = false := by simpa using hd
    have he : s.emailData = [] := hs.2 hd0
    rw [if_neg hd] at h
    dsimp only at h
    split_ifs at h with h1 h2 h3 h4 h5 h6 h7 h8
    · simp only [Option.some.injEq, Prod.mk.injEq] at h
      rw [← h.1]; exact hs
    · cases ha : substr line 10 with
      | none => rw [ha] at h; exact absurd h (by simp)
      | some a =>
        rw [ha] at h
        simp only [Option.some.injEq, Prod.mk.injEq] at h
        rw [← h.1]
        exact ⟨fun c => absurd (hd0.symm.trans c) (by simp), fun _ => he⟩
    · cases ha : substr line 8 with
      | none => rw [ha] at h; exact absurd h (by simp)
      | some a =>
        rw [ha] at h
        simp only [Option.some.injEq, Prod.mk.injEq] at h
        rw [← h.1]
        exact ⟨fun c => absurd (hd0.symm.trans c) (by simp), fun _ => he⟩
    · simp only [Option.some.injEq, Prod.mk.injEq] at h
      rw [← h.1]; exact hs
    · simp only [Option.some.injEq, Prod.mk.injEq] at h
      rw [← h.1]
      exact ⟨fun _ => ⟨fun c => h5 (Or.inl c), fun c => h5 (Or.inr c)⟩,
        fun c => absurd c (by simp)⟩
    · simp only [Option.some.injEq, Prod.mk.injEq] at h
      rw [← h.1]
      exact ⟨fun c => absurd c (by simp), fun _ => rfl⟩
    · simp only [Option.some.injEq, Prod.mk.injEq] at h
      rw [← h.1]; exact hs
    · simp only [Option.some.injEq, Prod.mk.injEq] at h
      rw [← h.1]
      exact ⟨fun c => absurd (hd0.symm.trans c) (by simp), fun _ => he⟩
    · simp only [Option.some.injEq, Prod.mk.injEq] at h
      rw [← h.1]; exact hs

theorem reachable_consistent (net : Nat → RelayEnv) (s : Session) (h : Reachable net s) :
    Consistent s := by
  induction h with
  | init => exact ⟨fun c => absurd c (by decide), fun _ => rfl⟩
  | step s s1 line ev _ _ hstep ih => exact processLine_consistent net s s1 line ev ih hstep

theorem reachable_addressed : Reachable netDown addressed :=
  Reachable.step { initial with mailFrom := "<a@x.com>".toList } addressed
    "RCPT TO:<b@y.com>".toList [Event.reply reply250OK]
    (Reachable.step initial _ "MAIL FROM:<a@x.com>".toList [Event.reply reply250OK]
      Reachable.init rfl (by decide))
    rfl (by decide)

/-! ## Lines captured as message text -/

theorem processLine_capture (net : Nat → RelayEnv) (s : Session) (line : Bytes)
    (hmode : s.dataMode = true) (hline : line ≠ ['.']) :
    processLine net s line = some ({ s with emailData := s.emailData ++ line ++ CRLF }, []) := by
  unfold processLine
  rw [if_pos hmode, if_neg hline]

theorem processLines_capture (net : Nat → RelayEnv) (lines rest : List Bytes) :
    ∀ s : Session, s.dataMode = true → s.running = true → (∀ l ∈ lines, l ≠ ['.']) →
      processLines net s (lines ++ rest) =
        processLines net { s with emailData := s.emailData ++ joinLines lines } rest := by
  induction lines with
  | nil => intro s _ _ _; simp [joinLines]
  | cons l ls ih =>
    intro s hmode hrun hdot
    have hl : l ≠ ['.'] := hdot l (List.mem_cons_self _ _)
    have hls : ∀ x ∈ ls, x ≠ ['.'] := fun x hx => hdot x (List.mem_cons_of_mem _ hx)
    rw [List.cons_append, processLines, processLine_capture net s l hmode hl]
    have h2 := ih { s with emailData := s.emailData ++ l ++ CRLF } hmode hrun hls
    simp only [hrun, if_true] at h2 ⊢
    rw [h2]
    simp only [joinLines, List.append_assoc, List.nil_append]
    cases processLines net
      { s with emailData := s.emailData ++ (l ++ (CRLF ++ joinLines ls)), running := true } rest with
    | none => rfl
    | some p => rfl

/-! ## The input buffer -/

theorem findAt_append (pat b c : Bytes) (i p : Nat) (h : findAt pat b i = some p) :
    findAt pat (b ++ c) i = some p := by
  induction b generalizing i with
  | nil =>
    have hp : pat = [] := by
      by_contra hne
      simp [findAt, hne] at h
    subst hp
    have hi : i = p := by simpa [findAt] using h
    subst hi
    cases c <;> simp [findAt]
  | cons x b ih =>
    by_cases hx : pat.isPrefixOf (x :: b) = true
    · rw [findAt, if_pos hx] at h
      have hpre : pat <+: x :: b := List.isPrefixOf_iff_prefix.mp hx
      have hx2 : pat.isPrefixOf (x :: (b ++ c)) = true :=
        List.isPrefixOf_iff_prefix.mpr (hpre.trans (List.prefix_append (x :: b) c))
      rw [List.cons_append, findAt, if_pos hx2]
      exact h
    · rw [findAt, if_neg hx] at h
      have hb := findAt_bound pat b (i + 1) p h
      have hx2 : ¬ pat.isPrefixOf (x :: (b ++ c)) = true := by
        intro hc
        have hpre : pat <+: (x :: b) ++ c := List.isPrefixOf_iff_prefix.mp hc
        apply hx
        apply List.isPrefixOf_iff_prefix.mpr
        apply List.prefix_of_prefix_length_le hpre (List.prefix_append (x :: b) c)
        simp only [List.length_cons]
        omega
      rw [List.cons_append, findAt, if_neg hx2]
      exact ih (i + 1) h

theorem find_append (b c : Bytes) (pat : Bytes) (p : Nat) (h : find b pat = some p) :
    find (b ++ c) pat = some p := by
  rw [find_eq_findAt] at h ⊢
  exact findAt_append pat b c 0 p h

theorem substrN_zero (s : Bytes) (n : Nat) : substrN s 0 n = some (s.take n) := by
  simp [substrN]

theorem erase_zero (s : Bytes) (n : Nat) : erase s 0 n = some (s.drop n) := by
  simp [erase]

theorem processLine_withBuffer (net : Nat → RelayEnv) (s : Session) (line b : Bytes) :
    processLine net { s with commandBuffer := b } line =
      (processLine net s line).map fun p => ({ p.1 with commandBuffer := b }, p.2) := by
  unfold processLine
  dsimp only
  split_ifs
  · cases relayEmail (net s.relayAttempts) s.mailFrom s.rcptTo s.emailData <;> rfl
  · rfl
  · rfl
  · cases substr line 10 <;> rfl
  · cases substr line 8 <;> rfl
  all_goals rfl

theorem processLine_buffer (net : Nat → RelayEnv) (s s1 : Session) (line : Bytes)
    (ev : List Event) (h : processLine net s line = some (s1, ev)) :
    s1.commandBuffer = s.commandBuffer := by
  have h2 := processLine_withBuffer net s line s.commandBuffer
  rw [h] at h2
  simp only [Option.map_some', Option.some.injEq, Prod.mk.injEq, and_true] at h2
  have h3 := congrArg Session.commandBuffer h2
  exact h3

theorem drainLoop_some (net : Nat → RelayEnv) (fuel : Nat) :
    ∀ s : Session, ∃ r, drainLoop net fuel s = some r := by
  induction fuel with
  | zero => intro s; exact ⟨_, rfl⟩
  | succ f ih =>
    intro s
    rw [drainLoop]
    cases find s.commandBuffer CRLF with
    | none => exact ⟨_, rfl⟩
    | some pos =>
      dsimp only
      rw [substrN_zero, erase_zero]
      dsimp only
      obtain ⟨⟨s1, ev⟩, h1⟩ := processLine_some net
        { s with commandBuffer := s.commandBuffer.drop (pos + 2) } (s.commandBuffer.take pos)
      rw [h1]
      dsimp only
      by_cases hr : s1.running = true
      · rw [if_pos hr]
        obtain ⟨⟨s2, tr⟩, h2⟩ := ih s1
        rw [h2]
        exact ⟨_, rfl⟩
      · rw [if_neg hr]
        exact ⟨_, rfl⟩

theorem find_nil (pat : Bytes) (h : pat ≠ []) : find [] pat = none := by
  simp [find_eq_findAt, findAt, h]

theorem drainLoop_fuel (net : Nat → RelayEnv) (f1 : Nat) :
    ∀ (f2 : Nat) (s : Session), s.commandBuffer.length ≤ f1 → s.commandBuffer.length ≤ f2 →
      drainLoop net f1 s = drainLoop net f2 s := by
  induction f1 with
  | zero =>
    intro f2 s h1 _
    have hb : s.commandBuffer = [] := List.length_eq_zero.mp (Nat.le_zero.mp h1)
    cases f2 with
    | zero => rfl
    | succ g => rw [drainLoop, drainLoop, hb, find_nil CRLF (by decide)]
  | succ f ih =>
    intro f2 s h1 h2
    cases f2 with
    | zero =>
      have hb : s.commandBuffer = [] := List.length_eq_zero.mp (Nat.le_zero.mp h2)
      rw [drainLoop, drainLoop, hb, find_nil CRLF (by decide)]
    | succ g =>
      rw [drainLoop, drainLoop]
      cases hf : find s.commandBuffer CRLF with
      | none => rfl
      | some pos =>
        dsimp only
        rw [substrN_zero, erase_zero]
        dsimp only
        cases hp : processLine net
            { s with commandBuffer := s.commandBuffer.drop (pos + 2) } (s.commandBuffer.take pos) with
        | none => rfl
        | some r =>
          obtain ⟨s1, ev⟩ := r
          dsimp only
          have hb := processLine_buffer net _ s1 _ ev hp
          have hlen : s1.commandBuffer.length + 2 ≤ s.commandBuffer.length := by
            rw [find_eq_findAt] at hf
            have := (findAt_bound _ _ _ _ hf).2.1
            have hc : CRLF.length = 2 := rfl
            rw [hb]
            simp only [List.length_drop]
            omega
          rw [ih g s1 (by omega) (by omega)]

theorem drainLoop_append (net : Nat → RelayEnv) (c : Bytes) (f : Nat) :
    ∀ s : Session, s.running = true → s.commandBuffer.length ≤ f →
      drainLoop net (f + c.length) { s with commandBuffer := s.commandBuffer ++ c } =
        match drainLoop net f s with
        | none => none
        | some (s1, t1) =>
          if s1.running then
            match drain net { s1 with commandBuffer := s1.commandBuffer ++ c } with
            | none => none
            | some (s2, t2) => some (s2, t1 ++ t2)
          else some ({ s1 with commandBuffer := s1.commandBuffer ++ c }, t1) := by
  have stay : ∀ (g : Nat) (s : Session), s.running = true → s.commandBuffer.length ≤ g →
      drainLoop net (g + c.length) { s with commandBuffer := s.commandBuffer ++ c } =
        match (some (s, []) : Option (Session × Trace)) with
        | none => none
        | some (s1, t1) =>
          if s1.running then
            match drain net { s1 with commandBuffer := s1.commandBuffer ++ c } with
            | none => none
            | some (s2, t2) => some (s2, t1 ++ t2)
          else some ({ s1 with commandBuffer := s1.commandBuffer ++ c }, t1) := by
    intro g s hrun hlen
    dsimp only
    rw [if_pos hrun, drain]
    rw [drainLoop_fuel net (g + c.length) (s.commandBuffer ++ c).length _
      (by simp only [List.length_append]; omega) (le_refl _)]
    cases drainLoop net (s.commandBuffer ++ c).length
      { s with commandBuffer := s.commandBuffer ++ c } with
    | none => rfl
    | some r => simp
  induction f with
  | zero =>
    intro s hrun hlen
    rw [stay 0 s hrun hlen]
    rfl
  | succ f ih =>
    intro s hrun hlen
    cases hf : find s.commandBuffer CRLF with
    | none =>
      rw [stay (f + 1) s hrun hlen]
      rw [drainLoop, hf]
    | some pos =>
      have hb : pos + 2 ≤ s.commandBuffer.length := by
        rw [find_eq_findAt] at hf
        have := (findAt_bound _ _ _ _ hf).2.1
        have hc : CRLF.length = 2 := rfl
        omega
      rw [Nat.add_right_comm, drainLoop, drainLoop]
      dsimp only
      rw [find_append _ c _ _ hf, hf]
      dsimp only
      rw [substrN_zero, erase_zero, substrN_zero, erase_zero]
      dsimp only
      rw [List.take_append_of_le_length (by omega), List.drop_append_of_le_length hb]
      rw [processLine_withBuffer net s _ (s.commandBuffer.drop (pos + 2) ++ c),
        processLine_withBuffer net s _ (s.commandBuffer.drop (pos + 2))]
      cases processLine net s (s.commandBuffer.take pos) with
      | none => rfl
      | some r =>
        obtain ⟨s0, ev⟩ := r
        simp only [Option.map_some']
        by_cases hr0 : s0.running = true
        · simp only [hr0, if_true]
          have h2 := ih { s0 with commandBuffer := s.commandBuffer.drop (pos + 2) } hr0
            (by simp only [List.length_drop]; omega)
          simp only [hr0] at h2
          rw [h2]
          cases drainLoop net f
              { s0 with commandBuffer := s.commandBuffer.drop (pos + 2), running := true } with
          | none => rfl
          | some r1 =>
            obtain ⟨s1, t1⟩ := r1
            dsimp only
            by_cases hr1 : s1.running = true
            · simp only [hr1, if_true]
              cases drain net { s1 with commandBuffer := s1.commandBuffer ++ c, running := true } with
              | none => rfl
              | some r2 => simp
            · simp [hr1]
        · simp [hr0]

theorem joinChunks_ne_nil (chunks : List Bytes) (hne : chunks ≠ [])
    (hchunk : ∀ c ∈ chunks, c ≠ []) : joinChunks chunks ≠ [] := by
  cases chunks with
  | nil => exact absurd rfl hne
  | cons c cs =>
    have hc : c ≠ [] := hchunk c (List.mem_cons_self _ _)
    simp [joinChunks, hc]

/-- The loop is left only when `QUIT` has stopped the session or no CRLF is left
in the buffer: the iterations allowed are enough. -/
theorem drainLoop_done (net : Nat → RelayEnv) (f : Nat) :
    ∀ (s s1 : Session) (t : Trace), s.commandBuffer.length ≤ f →
      drainLoop net f s = some (s1, t) →
      s1.running = false ∨ find s1.commandBuffer CRLF = none := by
  induction f with
  | zero =>
    intro s s1 t hlen h
    have hb : s.commandBuffer = [] := List.length_eq_zero.mp (Nat.le_zero.mp hlen)
    rw [drainLoop] at h
    simp only [Option.some.injEq, Prod.mk.injEq] at h
    right
    rw [← h.1, hb]
    exact find_nil CRLF (by decide)
  | succ f ih =>
    intro s s1 t hlen h
    rw [drainLoop] at h
    cases hf : find s.commandBuffer CRLF with
    | none =>
      rw [hf] at h
      simp only [Option.some.injEq, Prod.mk.injEq] at h
      right
      rw [← h.1]
      exact hf
    | some pos =>
      rw [hf] at h
      dsimp only at h
      rw [substrN_zero, erase_zero] at h
      dsimp only at h
      cases hp : processLine net
          { s with commandBuffer := s.commandBuffer.drop (pos + 2) } (s.commandBuffer.take pos) with
      | none => rw [hp] at h; exact absurd h (by simp)
      | some r =>
        obtain ⟨s0, ev⟩ := r
        rw [hp] at h
        dsimp only at h
        have hb := processLine_buffer net _ s0 _ ev hp
        have hlen0 : s0.commandBuffer.length ≤ f := by
          rw [find_eq_findAt] at hf
          have := (findAt_bound _ _ _ _ hf).2.1
          have hc : CRLF.length = 2 := rfl
          rw [hb]
          simp only [List.length_drop]
          omega
        by_cases hr0 : s0.running = true
        · rw [if_pos hr0] at h
          cases hd : drainLoop net f s0 with
          | none => rw [hd] at h; exact absurd h (by simp)
          | some r1 =>
            obtain ⟨s2, tr⟩ := r1
            rw [hd] at h
            simp only [Option.some.injEq, Prod.mk.injEq] at h
            rw [← h.1]
            exact ih s0 s2 tr hlen0 hd
        · rw [if_neg hr0] at h
          simp only [Option.some.injEq, Prod.mk.injEq] at h
          left
          rw [← h.1]
          simpa using hr0

theorem serve_chunks (net : Nat → RelayEnv) (chunks : List Bytes) :
    ∀ s : Session, (∀ c ∈ chunks, c ≠ []) → chunks ≠ [] → s.running = true →
      ∃ a b, serve net s (chunks.map some) = some a ∧
        drain net { s with commandBuffer := s.commandBuffer ++ joinChunks chunks } = some b ∧
        a.2 = b.2 ∧ sameTransaction a.1 b.1 ∧
        (b.1.running = true → a.1.commandBuffer = b.1.commandBuffer) := by
  induction chunks with
  | nil => intro s _ hne _; exact absurd rfl hne
  | cons c cs ih =>
    intro s hchunk _ hrun
    have hc : c ≠ [] := hchunk c (List.mem_cons_self _ _)
    have hcs : ∀ x ∈ cs, x ≠ [] := fun x hx => hchunk x (List.mem_cons_of_mem _ hx)
    have hclen : c.length > 0 := List.length_pos.mpr hc
    obtain ⟨⟨s1, t1⟩, h1⟩ := drainLoop_some net (s.commandBuffer ++ c).length
      { s with commandBuffer := s.commandBuffer ++ c }
    have hstep : recvStep net s (some c) = some (s1, t1) := by
      rw [recvStep]
      rw [if_pos hclen]
      exact h1
    rw [List.map_cons, serve, if_pos hrun, hstep]
    dsimp only
    by_cases hnil : cs = []
    · subst hnil
      refine ⟨(s1, t1), (s1, t1), by simp [serve], ?_, rfl, ⟨rfl, rfl, rfl, rfl, rfl, rfl⟩,
        fun _ => rfl⟩
      simp only [joinChunks, List.append_nil]
      exact h1
    · have hsingle : drain net
            { s with commandBuffer := s.commandBuffer ++ joinChunks (c :: cs) } =
          if s1.running then
            match drain net { s1 with commandBuffer := s1.commandBuffer ++ joinChunks cs } with
            | none => none
            | some (s2, t2) => some (s2, t1 ++ t2)
          else some ({ s1 with commandBuffer := s1.commandBuffer ++ joinChunks cs }, t1) := by
        have h2 := drainLoop_append net (joinChunks cs) (s.commandBuffer ++ c).length
          { s with commandBuffer := s.commandBuffer ++ c } hrun (le_refl _)
        rw [h1] at h2
        dsimp only at h2
        rw [← h2, drain]
        dsimp only
        simp only [joinChunks, List.append_assoc, List.length_append, Nat.add_assoc]
      by_cases hr1 : s1.running = true
      · obtain ⟨a, b, ha, hb, htr, hsame, hbuf⟩ := ih s1 hcs hnil hr1
        rw [ha, hsingle, if_pos hr1, hb]
        exact ⟨(a.1, t1 ++ a.2), (b.1, t1 ++ b.2), rfl, rfl, by rw [htr], hsame, hbuf⟩
      · have hserve : serve net s1 (cs.map some) = some (s1, []) := by
          cases cs with
          | nil => rfl
          | cons x xs => rw [List.map_cons, serve, if_neg hr1]
        rw [hserve, hsingle, if_neg hr1]
        refine ⟨(s1, t1 ++ []), _, rfl, rfl, by simp, ⟨rfl, rfl, rfl, rfl, rfl, rfl⟩, ?_⟩
        intro h
        exact absurd h hr1

theorem serve_chunks_read (net : Nat → RelayEnv) (chunks : List Bytes) :
    ∀ s : Session, (∀ c ∈ chunks, c ≠ []) → chunks ≠ [] → allRead net s chunks = true →
      ∃ r, serve net s (chunks.map some) = some r ∧
        drain net { s with commandBuffer := s.commandBuffer ++ joinChunks chunks } = some r := by
  induction chunks with
  | nil => intro s _ hne _; exact absurd rfl hne
  | cons c cs ih =>
    intro s hchunk _ hread
    have hc : c ≠ [] := hchunk c (List.mem_cons_self _ _)
    have hcs : ∀ x ∈ cs, x ≠ [] := fun x hx => hchunk x (List.mem_cons_of_mem _ hx)
    have hclen : c.length > 0 := List.length_pos.mpr hc
    obtain ⟨⟨s1, t1⟩, h1⟩ := drainLoop_some net (s.commandBuffer ++ c).length
      { s with commandBuffer := s.commandBuffer ++ c }
    have hstep : recvStep net s (some c) = some (s1, t1) := by
      rw [recvStep]
      rw [if_pos hclen]
      exact h1
    rw [allRead, hstep] at hread
    simp only [Bool.and_eq_true] at hread
    obtain ⟨hrun, hrest⟩ := hread
    rw [List.map_cons, serve, if_pos hrun, hstep]
    dsimp only
    by_cases hnil : cs = []
    · subst hnil
      refine ⟨(s1, t1), by simp [serve], ?_⟩
      simp only [joinChunks, List.append_nil]
      exact h1
    · have hsingle : drain net
            { s with commandBuffer := s.commandBuffer ++ joinChunks (c :: cs) } =
          if s1.running then
            match drain net { s1 with commandBuffer := s1.commandBuffer ++ joinChunks cs } with
            | none => none
            | some (s2, t2) => some (s2, t1 ++ t2)
          else some ({ s1 with commandBuffer := s1.commandBuffer ++ joinChunks cs }, t1) := by
        have h2 := drainLoop_append net (joinChunks cs) (s.commandBuffer ++ c).length
          { s with commandBuffer := s.commandBuffer ++ c } hrun (le_refl _)
        rw [h1] at h2
        dsimp only at h2
        rw [← h2, drain]
        dsimp only
        simp only [joinChunks, List.append_assoc, List.length_append, Nat.add_assoc]
      have hr1 : s1.running = true := by
        cases cs with
        | nil => exact absurd rfl hnil
        | cons x xs =>
          rw [allRead] at hrest
          simp only [Bool.and_eq_true] at hrest
          exact hrest.1
      obtain ⟨r, ha, hb⟩ := ih s1 hcs hnil hrest
      rw [ha, hsingle, if_pos hr1, hb]
      exact ⟨(r.1, t1 ++ r.2), rfl, rfl⟩

/-- Whether or not every chunk is read, chunked input and one read of the whole
input give the same lines, replies, relay calls, transaction and `running`
flag; the buffer remainders agree whenever the session is still running. -/
theorem chunked_reads_agree (net : Nat → RelayEnv) (s : Session)
    (chunks : List Bytes) (hne : chunks ≠ []) (hchunk : ∀ c ∈ chunks, c ≠ []) :
    ∃ many one, serve net s (chunks.map some) = some many ∧
      serve net s [some (joinChunks chunks)] = some one ∧
      many.2 = one.2 ∧
      many.1.dataMode = one.1.dataMode ∧ many.1.mailFrom = one.1.mailFrom ∧
      many.1.rcptTo = one.1.rcptTo ∧ many.1.emailData = one.1.emailData ∧
      many.1.running = one.1.running ∧ many.1.relayAttempts = one.1.relayAttempts ∧
      (one.1.running = true → many.1.commandBuffer = one.1.commandBuffer) := by
  by_cases hrun : s.running = true
  · obtain ⟨a, b, ha, hb, htr, hsame, hbuf⟩ := serve_chunks net chunks s hchunk hne hrun
    have hj : (joinChunks chunks).length > 0 :=
      List.length_pos.mpr (joinChunks_ne_nil chunks hne hchunk)
    refine ⟨a, (b.1, b.2 ++ []), ha, ?_, by simpa using htr, hsame.1, hsame.2.1, hsame.2.2.1,
      hsame.2.2.2.1, hsame.2.2.2.2.1, hsame.2.2.2.2.2, hbuf⟩
    rw [serve, if_pos hrun, recvStep]
    rw [if_pos hj, hb]
    rfl
  · refine ⟨(s, []), (s, []), ?_, ?_, rfl, rfl, rfl, rfl, rfl, rfl, rfl, fun _ => rfl⟩
    · cases chunks with
      | nil => exact absurd rfl hne
      | cons c cs => rw [List.map_cons, serve, if_neg hrun]
    · rw [serve, if_neg hrun]


/-! ## The session engine, line by line -/

/-- C1: when the input is cut into non-empty chunks, wherever the cuts fall, and
each chunk is read one after another (the session is running each time), the
result is the same as after one read of the whole input: the same lines
processed with the same replies and relay calls, and the same final session,
that is the same transaction, the same unconsumed remainder of the buffer and
the same `running` flag. -/
theorem chunked_same_as_single_read (net : Nat → RelayEnv) (s : Session)
    (chunks : List Bytes) (hne : chunks ≠ []) (hchunk : ∀ c ∈ chunks, c ≠ [])
    (hread : allRead net s chunks = true) :
    ∃ r, serve net s (chunks.map some) = some r ∧
      serve net s [some (joinChunks chunks)] = some r := by
  obtain ⟨r, ha, hb⟩ := serve_chunks_read net chunks s hchunk hne hread
  have hrun : s.running = true := by
    cases chunks with
    | nil => exact absurd rfl hne
    | cons c cs =>
      rw [allRead] at hread
      simp only [Bool.and_eq_true] at hread
      exact hread.1
  have hj : (joinChunks chunks).length > 0 :=
    List.length_pos.mpr (joinChunks_ne_nil chunks hne hchunk)
  refine ⟨r, ha, ?_⟩
  rw [serve, if_pos hrun, recvStep]
  rw [if_pos hj, hb]
  simp [serve]

theorem chunked_same_as_single_read_witness :
    (∀ c ∈ ["MAIL FR".toList, "OM:<a@x.com>\r".toList, "\nNOOP\r\nQU".toList, "IT\r\nXY".toList],
        c ≠ []) ∧
      allRead netDown initial
          ["MAIL FR".toList, "OM:<a@x.com>\r".toList, "\nNOOP\r\nQU".toList, "IT\r\nXY".toList] =
        true ∧
      (serve netDown initial [some "MAIL FROM:<a@x.com>\r\nNOOP\r\nQUIT\r\nXY".toList]).map
          (fun p => p.1.commandBuffer) = some "XY".toList ∧
      ∃ r,
        serve netDown initial
            (["MAIL FR".toList, "OM:<a@x.com>\r".toList, "\nNOOP\r\nQU".toList,
              "IT\r\nXY".toList].map some) = some r ∧
        serve netDown initial
            [some (joinChunks ["MAIL FR".toList, "OM:<a@x.com>\r".toList, "\nNOOP\r\nQU".toList,
              "IT\r\nXY".toList])] = some r :=
  ⟨by decide, by decide, by decide,
    chunked_same_as_single_read netDown initial
      ["MAIL FR".toList, "OM:<a@x.com>\r".toList, "\nNOOP\r\nQU".toList, "IT\r\nXY".toList]
      (by decide) (by decide) (by decide)⟩

/-- C2 (as amended): in command mode the line `RSET` is answered with `250 OK` and
leaves `mailFrom`, `rcptTo` and the body empty and the mode in command mode; in
data-capture mode the same line is captured as body text: nothing is written,
the mode and the addresses stay and the body grows by `RSET` and CRLF. -/
theorem rset_line (net : Nat → RelayEnv) (s : Session) :
    processLine net s "RSET".toList =
      if s.dataMode then some ({ s with emailData := s.emailData ++ "RSET".toList ++ CRLF }, [])
      else some ({ s with mailFrom := [], rcptTo := [], emailData := [], dataMode := false },
                 [Event.reply reply250OK]) := by
  unfold processLine
  by_cases hd : s.dataMode = true
  · rw [if_pos hd, if_pos hd, if_neg (by decide)]
  · rw [if_neg hd, if_neg hd]
    have hu : "RSET".toList.map toupper = "RSET".toList := by decide
    simp only [hu]
    rw [if_neg (by decide), if_neg (by decide), if_neg (by decide), if_neg (by decide),
      if_pos trivial]

/-- C2 (as stated) fails in data-capture mode: the line `RSET` is not answered
with `250 OK` and the transaction is not cleared; it becomes part of the body. -/
theorem rset_in_capture_not_reset :
    processLine netDown capturing "RSET".toList =
        some ({ capturing with emailData := "Hello\r\nRSET\r\n".toList }, []) ∧
      ¬ ∃ s1, processLine netDown capturing "RSET".toList = some (s1, [Event.reply reply250OK]) ∧
          s1.mailFrom = [] ∧ s1.rcptTo = [] ∧ s1.emailData = [] ∧ s1.dataMode = false := by
  have h : processLine netDown capturing "RSET".toList =
      some ({ capturing with emailData := "Hello\r\nRSET\r\n".toList }, []) := by decide
  refine ⟨h, ?_⟩
  rintro ⟨s1, h1, -⟩
  rw [h] at h1
  simp at h1

/-- C3: in command mode a line that is `DATA` in any letter case is answered with
`503 Bad sequence of commands` and changes nothing when `mailFrom` or `rcptTo`
is empty, and is answered with `354 End data with <CR><LF>.<CR><LF>` and
switches to data capture when both are non-empty. -/
theorem data_line (net : Nat → RelayEnv) (s : Session) (line : Bytes)
    (hmode : s.dataMode = false) (hline : line.map toupper = "DATA".toList) :
    processLine net s line =
      if s.mailFrom = [] ∨ s.rcptTo = [] then some (s, [Event.reply reply503])
      else some ({ s with dataMode := true }, [Event.reply reply354]) := by
  unfold processLine
  rw [hmode]
  simp only [Bool.false_eq_true, if_false, hline]
  rw [if_neg (by decide), if_neg (by decide), if_neg (by decide), if_pos trivial]

theorem data_line_witness :
    initial.dataMode = false ∧ "dAtA".toList.map toupper = "DATA".toList ∧
      processLine netDown initial "dAtA".toList = some (initial, [Event.reply reply503]) :=
  ⟨rfl, by decide, (data_line netDown initial "dAtA".toList rfl (by decide)).trans (by decide)⟩

/-- C4: in every session state reached from the initial one, data-capture mode
comes with a non-empty `mailFrom` and a non-empty `rcptTo`. -/
theorem capture_has_addresses (net : Nat → RelayEnv) (s : Session) (hr : Reachable net s)
    (hmode : s.dataMode = true) : s.mailFrom ≠ [] ∧ s.rcptTo ≠ [] :=
  (reachable_consistent net s hr).1 hmode

theorem capture_has_addresses_witness :
    Reachable netDown { addressed with dataMode := true } ∧
      ({ addressed with dataMode := true } : Session).dataMode = true ∧
      ({ addressed with dataMode := true } : Session).mailFrom ≠ [] ∧
      ({ addressed with dataMode := true } : Session).rcptTo ≠ [] :=
  have hr : Reachable netDown { addressed with dataMode := true } :=
    Reachable.step addressed _ "DATA".toList [Event.reply reply354] reachable_addressed rfl
      (by decide)
  ⟨hr, rfl, capture_has_addresses netDown _ hr rfl⟩

/-- C5: from a reachable state in which `DATA` is accepted (session running,
command mode, both addresses set), processing `DATA`, then lines `L1 .. Ln` none
of which is `.`, then the line `.` calls `relayEmail` exactly once, with the
stored `mailFrom` and `rcptTo` and with the body `L1 CRLF .. Ln CRLF`. -/
theorem captured_body_relayed (net : Nat → RelayEnv) (s : Session) (lines : List Bytes)
    (hr : Reachable net s) (hrun : s.running = true) (hmode : s.dataMode = false)
    (hfrom : s.mailFrom ≠ []) (hto : s.rcptTo ≠ []) (hdot : ∀ l ∈ lines, l ≠ ['.']) :
    ∃ r, relayEmail (net s.relayAttempts) s.mailFrom s.rcptTo (joinLines lines) = some r ∧
      processLines net s ("DATA".toList :: (lines ++ [['.']])) =
        some ({ s with dataMode := false, mailFrom := [], rcptTo := [], emailData := [],
                       relayAttempts := s.relayAttempts + 1 },
              [Event.reply reply354,
               Event.relay s.mailFrom s.rcptTo (joinLines lines) r.ok,
               Event.reply (if r.ok then reply250Relayed else reply550)]) := by
  obtain ⟨r, hrel⟩ := relayEmail_some (net s.relayAttempts) s.mailFrom s.rcptTo (joinLines lines)
  refine ⟨r, hrel, ?_⟩
  have hbody : s.emailData = [] := (reachable_consistent net s hr).2 hmode
  have hdata : processLine net s "DATA".toList =
      some ({ s with dataMode := true }, [Event.reply reply354]) := by
    unfold processLine
    rw [hmode]
    have hu : "DATA".toList.map toupper = "DATA".toList := by decide
    simp only [Bool.false_eq_true, if_false, hu]
    rw [if_neg (by decide), if_neg (by decide), if_neg (by decide), if_pos trivial,
      if_neg (by simp [hfrom, hto])]
  rw [processLines, hdata]
  have h2 := processLines_capture net lines [['.']] { s with dataMode := true } rfl hrun hdot
  simp only [hrun, if_true, hbody, List.nil_append] at h2 ⊢
  rw [h2, processLines]
  unfold processLine
  simp only [if_true, hrel, hrun, processLines, List.append_nil, List.singleton_append]

theorem captured_body_relayed_witness :
    Reachable netDown addressed ∧
      ∃ r, relayEmail (netDown addressed.relayAttempts) addressed.mailFrom addressed.rcptTo
          (joinLines ["Hello".toList, "..".toList]) = some r ∧
        processLines netDown addressed
            ("DATA".toList :: (["Hello".toList, "..".toList] ++ [['.']])) =
          some ({ addressed with dataMode := false, mailFrom := [], rcptTo := [], emailData := [],
                                 relayAttempts := addressed.relayAttempts + 1 },
                [Event.reply reply354,
                 Event.relay addressed.mailFrom addressed.rcptTo
                   (joinLines ["Hello".toList, "..".toList]) r.ok,
                 Event.reply (if r.ok then reply250Relayed else reply550)]) :=
  ⟨reachable_addressed,
    captured_body_relayed netDown addressed ["Hello".toList, "..".toList] reachable_addressed
      rfl rfl (by decide) (by decide) (by decide)⟩

/-- C6: in data-capture mode the line `.` calls `relayEmail` once, writes
`250 OK: Email relayed` when it reports success and `550 Failed to relay email`
when it reports failure, and in both cases leaves `mailFrom`, `rcptTo` and the
body empty and the mode in command mode.  Success is not reported when `rcptTo`
has no `@`, when no domain resolves, when the socket or the connect fails, when
the banner read fails, or when one of the six sends or of their reads fails. -/
theorem end_of_data (net : Nat → RelayEnv) (s : Session) (hmode : s.dataMode = true) :
    ∃ r, relayEmail (net s.relayAttempts) s.mailFrom s.rcptTo s.emailData = some r ∧
      processLine net s ['.'] =
        some ({ s with dataMode := false, mailFrom := [], rcptTo := [], emailData := [],
                       relayAttempts := s.relayAttempts + 1 },
              [Event.relay s.mailFrom s.rcptTo s.emailData r.ok,
               Event.reply (if r.ok then reply250Relayed else reply550)]) ∧
      ((find s.rcptTo ['@'] = none ∨
          (∀ domain, getMxRecord (net s.relayAttempts).dnsQuery domain = []) ∨
          (net s.relayAttempts).socket = false ∨ (net s.relayAttempts).connect = false ∨
          (∃ k, k < 6 ∧ ∀ cmd, (net s.relayAttempts).send k cmd = false) ∨
          (∃ k, k < 7 ∧ recvFailed ((net s.relayAttempts).recv k) = true)) →
        r.ok = false) := by
  obtain ⟨r, hr⟩ := relayEmail_some (net s.relayAttempts) s.mailFrom s.rcptTo s.emailData
  refine ⟨r, hr, ?_, ?_⟩
  · unfold processLine
    rw [if_pos hmode, if_pos rfl, hr]
  · intro hfail
    by_contra hok
    have hok1 : r.ok = true := by simpa using hok
    obtain ⟨h1, ⟨d, h2⟩, h3, h4, h5, h6⟩ := relayEmail_ok _ _ _ _ r hr hok1
    rcases hfail with h | h | h | h | ⟨k, hk, h⟩ | ⟨k, hk, h⟩
    · exact h1 h
    · exact h2 (h d)
    · rw [h3] at h; exact absurd h (by decide)
    · rw [h4] at h; exact absurd h (by decide)
    · obtain ⟨⟨cmd, hc⟩, -⟩ := h6 k hk
      rw [h cmd] at hc; exact absurd hc (by decide)
    · cases k with
      | zero => rw [h5] at h; exact absurd h (by decide)
      | succ j =>
        have := (h6 j (by omega)).2
        rw [this] at h; exact absurd h (by decide)

theorem end_of_data_witness :
    capturing.dataMode = true ∧
      ∃ r, relayEmail (netUp capturing.relayAttempts) capturing.mailFrom capturing.rcptTo
          capturing.emailData = some r ∧
        processLine netUp capturing ['.'] =
          some ({ capturing with dataMode := false, mailFrom := [], rcptTo := [], emailData := [],
                                 relayAttempts := capturing.relayAttempts + 1 },
                [Event.relay capturing.mailFrom capturing.rcptTo capturing.emailData r.ok,
                 Event.reply (if r.ok then reply250Relayed else reply550)]) :=
  ⟨rfl, (end_of_data netUp capturing rfl).imp fun _ h => ⟨h.1, h.2.1⟩⟩

/-- C7: in command mode a line whose keyword is written in another letter case
gives the same reply and the same state as the line with the upper-case keyword
and the same remainder. -/
theorem keyword_case_irrelevant (net : Nat → RelayEnv) (s : Session) (kw kw1 rest : Bytes)
    (hmode : s.dataMode = false) (hkw : kw ∈ keywords) (hcase : kw1.map toupper = kw) :
    processLine net s (kw1 ++ rest) = processLine net s (kw ++ rest) := by
  have hup : kw.map toupper = kw := by
    simp only [keywords, List.mem_cons, List.mem_singleton, List.not_mem_nil, or_false] at hkw
    rcases hkw with h | h | h | h | h | h | h | h <;> subst h <;> decide
  have hlen : kw1.length = kw.length := by
    have := congrArg List.length hcase
    simpa using this
  have hU : (kw1 ++ rest).map toupper = (kw ++ rest).map toupper := by
    rw [List.map_append, List.map_append, hcase, hup]
  apply processLine_congr net s _ _ hmode hU
  · intro hm
    have hpre : "MAIL FROM:".toList <+: kw ++ rest.map toupper := by
      have := (find_zero_iff _ _).mp hm
      rwa [List.map_append, hup] at this
    apply substr_append_of_le _ _ _ _ hlen
    simp only [keywords, List.mem_cons, List.mem_singleton, List.not_mem_nil, or_false] at hkw
    rcases hkw with h | h | h | h | h | h | h | h <;> subst h <;> decide
  · intro hm hr
    apply substr_append_of_le _ _ _ _ hlen
    simp only [keywords, List.mem_cons, List.mem_singleton, List.not_mem_nil, or_false] at hkw
    rcases hkw with h | h | h | h | h | h | h | h
    all_goals first
      | (subst h; decide)
      | (exfalso
         apply hm
         rw [(find_zero_iff _ _), List.map_append, hup, h]
         exact List.prefix_append _ _)

theorem keyword_case_irrelevant_witness :
    initial.dataMode = false ∧ "MAIL FROM:".toList ∈ keywords ∧
      "mail from:".toList.map toupper = "MAIL FROM:".toList ∧
      processLine netDown initial ("mail from:".toList ++ "<a>".toList) =
        processLine netDown initial ("MAIL FROM:".toList ++ "<a>".toList) :=
  ⟨rfl, by decide, by decide,
    keyword_case_irrelevant netDown initial "MAIL FROM:".toList "mail from:".toList "<a>".toList
      rfl (by decide) (by decide)⟩

/-! ## The resolver and the header insertion -/

/-- C8: when the query succeeds and returns at least one MX record (preferences
being `WORD` values; the query is made for the domain as a C string),
`getMxRecord` returns the host of the first MX record, in list order, whose preference is the least one: every MX record before it has a
strictly greater preference, every one after it a greater or equal one.  One
trailing `.` is removed from the host when it ends in one. -/
theorem getMxRecord_first_minimum (dnsQuery : Bytes → Int × List DnsRecord) (domain : Bytes)
    (hstatus : (dnsQuery (c_str domain)).1 = 0)
    (hword : ∀ r ∈ (dnsQuery (c_str domain)).2, r.wPreference < 65536)
    (hmx : ∃ r ∈ (dnsQuery (c_str domain)).2, r.wType = DNS_TYPE_MX) :
    ∃ pre m post, mxRecords (dnsQuery (c_str domain)).2 = pre ++ m :: post ∧
      (∀ r ∈ pre, m.wPreference < r.wPreference) ∧
      (∀ r ∈ post, m.wPreference ≤ r.wPreference) ∧
      (∀ h, WideToString m.pNameExchange = h ++ ['.'] → getMxRecord dnsQuery domain = h) ∧
      ((∀ h, WideToString m.pNameExchange ≠ h ++ ['.']) →
        getMxRecord dnsQuery domain = WideToString m.pNameExchange) := by
  have hget : getMxRecord dnsQuery domain =
      popTrailingDot (mxLoop (dnsQuery (c_str domain)).2 [] 0xFFFFFFFF) := by
    unfold getMxRecord
    rw [if_neg (by simp [hstatus])]
  rcases mxLoop_spec (dnsQuery (c_str domain)).2 [] 0xFFFFFFFF with ⟨hall, -⟩ |
      ⟨pre, m, post, hsplit, -, hpre, hpost, hres⟩
  · obtain ⟨r, hr, hty⟩ := hmx
    have hmem : r ∈ mxRecords (dnsQuery (c_str domain)).2 := by
      simp [mxRecords, hr, hty]
    have h1 := hall r hmem
    have h2 := hword r hr
    omega
  · refine ⟨pre, m, post, hsplit, hpre, hpost, ?_, ?_⟩
    · intro h hh
      rw [hget, hres, hh, popTrailingDot_dot]
    · intro hno
      rw [hget, hres, popTrailingDot_other _ hno]

theorem getMxRecord_first_minimum_witness :
    ((netUp 0).dnsQuery "y.com".toList).1 = 0 ∧
      getMxRecord (netUp 0).dnsQuery "y.com".toList = "B".toList ∧
      ∃ pre m post, mxRecords ((netUp 0).dnsQuery "y.com".toList).2 = pre ++ m :: post ∧
        (∀ r ∈ pre, m.wPreference < r.wPreference) ∧
        (∀ r ∈ post, m.wPreference ≤ r.wPreference) ∧
        (∀ h, WideToString m.pNameExchange = h ++ ['.'] →
          getMxRecord (netUp 0).dnsQuery "y.com".toList = h) ∧
        ((∀ h, WideToString m.pNameExchange ≠ h ++ ['.']) →
          getMxRecord (netUp 0).dnsQuery "y.com".toList = WideToString m.pNameExchange) :=
  ⟨rfl, by decide,
    getMxRecord_first_minimum (netUp 0).dnsQuery "y.com".toList rfl (by decide) (by decide)⟩

/-- C9: the header insertion applied, at any time, to its own result leaves that
result unchanged. -/
theorem normalizeHeaders_idempotent (mailFrom body : Bytes) (t1 t2 : Int) :
    normalizeHeaders mailFrom (normalizeHeaders mailFrom body t1) t2 =
      normalizeHeaders mailFrom body t1 :=
  normalizeHeaders_present mailFrom _ t2 (normalizeHeaders_from mailFrom body t1)
    (normalizeHeaders_messageId mailFrom body t1)

/-- C10 at the body `Greetings from: Bob`: the text `from:` in the middle of the
line stops the insertion of the `From:` header, so the body that is sent has the
generated `Message-ID:` line and no line that begins with `From:`. -/
theorem normalizeHeaders_no_from_line :
    normalizeHeaders "<a@x.com>".toList "Greetings from: Bob\r\n".toList 1700000000 =
        "Message-ID: <1700000000.relay@localhost>\r\nGreetings from: Bob\r\n".toList ∧
      hasHeaderLine "From:".toList
        (normalizeHeaders "<a@x.com>".toList "Greetings from: Bob\r\n".toList 1700000000) = false := by
  decide

/-! ## The conversation with the remote server -/

theorem sendCommand_fst (env : RelayEnv) (k : Nat) (cmd : Bytes) :
    (sendCommand env k cmd).1 = true ↔
      env.send k cmd = true ∧ recvFailed (env.recv (k + 1)) = false := by
  unfold sendCommand
  split_ifs with h1 h2
  · simp [h1]
  · simp [h2]
  · simp at h1 h2
    simp [h1, h2]

theorem sendCommand_recv (env : RelayEnv) (recv2 : Nat → Option Bytes) (k : Nat) (cmd : Bytes)
    (h : ∀ j, recvFailed (recv2 j) = recvFailed (env.recv j)) :
    sendCommand { env with recv := recv2 } k cmd = sendCommand env k cmd := by
  unfold sendCommand
  dsimp only
  rw [h (k + 1)]

theorem sendAll_recv (env : RelayEnv) (recv2 : Nat → Option Bytes) (cmds : List Bytes)
    (h : ∀ j, recvFailed (recv2 j) = recvFailed (env.recv j)) :
    ∀ k, sendAll { env with recv := recv2 } k cmds = sendAll env k cmds := by
  induction cmds with
  | nil => intro k; rfl
  | cons c cs ih =>
    intro k
    rw [sendAll, sendAll, sendCommand_recv env recv2 k c h, ih (k + 1)]

theorem sendAll_ok (env : RelayEnv) (cmds : List Bytes) :
    ∀ k, (sendAll env k cmds).1 = true ↔
      ∀ i cmd, cmds[i]? = some cmd →
        env.send (k + i) cmd = true ∧ recvFailed (env.recv (k + i + 1)) = false := by
  induction cmds with
  | nil => intro k; simp [sendAll]
  | cons c cs ih =>
    intro k
    rw [sendAll]
    by_cases h : (sendCommand env k c).1 = false
    · rw [if_pos h]
      constructor
      · intro hc; exact absurd hc (by simp)
      · intro hall
        have h0 := hall 0 c (by simp)
        have := (sendCommand_fst env k c).mpr h0
        rw [h] at this
        exact absurd this (by simp)
    · rw [if_neg h]
      have h1 : (sendCommand env k c).1 = true := by simpa using h
      have h2 := (sendCommand_fst env k c).mp h1
      constructor
      · intro hrest i cmd hi
        cases i with
        | zero =>
          simp only [List.getElem?_cons_zero, Option.some.injEq] at hi
          subst hi
          exact h2
        | succ j =>
          simp only [List.getElem?_cons_succ] at hi
          have := (ih (k + 1)).mp hrest j cmd hi
          have e : k + (j + 1) = k + 1 + j := by omega
          rw [e]
          exact this
      · intro hall
        apply (ih (k + 1)).mpr
        intro j cmd hj
        have := hall (j + 1) cmd (by simpa using hj)
        have e : k + (j + 1) = k + 1 + j := by omega
        rw [e] at this
        exact this

theorem sendAll_all (env : RelayEnv) (cmds : List Bytes) :
    ∀ k, (sendAll env k cmds).1 = true → (sendAll env k cmds).2 = cmds := by
  induction cmds with
  | nil => intro k _; rfl
  | cons c cs ih =>
    intro k
    rw [sendAll]
    split_ifs with h
    · intro hc; exact absurd hc (by simp)
    · intro hc
      show c :: (sendAll env (k + 1) cs).2 = c :: cs
      rw [ih (k + 1) hc]

/-- The conversation of `relayToDomain` is `sendAll` on the six commands. -/
theorem relayToDomain_sendAll (env : RelayEnv) (domain mailFrom rcptTo emailData : Bytes) :
    relayToDomain env domain mailFrom rcptTo emailData =
      if getMxRecord env.dnsQuery domain = [] ∨ env.socket = false ∨
          env.getaddrinfo (getMxRecord env.dnsQuery domain) = false ∨ env.connect = false ∨
          recvFailed (env.recv 0) = true then ⟨false, []⟩
      else ⟨(sendAll env 0 (commandSequence mailFrom rcptTo emailData env.now)).1,
            (sendAll env 0 (commandSequence mailFrom rcptTo emailData env.now)).2⟩ := by
  unfold relayToDomain
  dsimp only
  by_cases h0 : getMxRecord env.dnsQuery domain = []
  · rw [if_pos h0, if_pos (Or.inl h0)]
  rw [if_neg h0]
  by_cases h1 : env.socket = false
  · rw [if_pos h1, if_pos (Or.inr (Or.inl h1))]
  rw [if_neg h1]
  by_cases h2 : env.getaddrinfo (getMxRecord env.dnsQuery domain) = false
  · rw [if_pos h2, if_pos (Or.inr (Or.inr (Or.inl h2)))]
  rw [if_neg h2]
  by_cases h3 : env.connect = false
  · rw [if_pos h3, if_pos (Or.inr (Or.inr (Or.inr (Or.inl h3))))]
  rw [if_neg h3]
  by_cases h4 : recvFailed (env.recv 0) = true
  · rw [if_pos h4, if_pos (Or.inr (Or.inr (Or.inr (Or.inr h4))))]
  have hpre : ¬ (getMxRecord env.dnsQuery domain = [] ∨ env.socket = false ∨
      env.getaddrinfo (getMxRecord env.dnsQuery domain) = false ∨ env.connect = false ∨
      recvFailed (env.recv 0) = true) := by tauto
  rw [if_neg h4, if_neg hpre]
  unfold commandSequence
  by_cases c1 : (sendCommand env 0 ("HELO localhost".toList ++ CRLF)).1 = false
  · rw [if_pos c1, sendAll, if_pos c1]
  rw [if_neg c1, sendAll, if_neg c1]
  by_cases c2 : (sendCommand env 1 ("MAIL FROM:".toList ++ mailFrom ++ CRLF)).1 = false
  · rw [if_pos c2, sendAll, if_pos c2]; rfl
  rw [if_neg c2, sendAll, if_neg c2]
  by_cases c3 : (sendCommand env 2 ("RCPT TO:".toList ++ rcptTo ++ CRLF)).1 = false
  · rw [if_pos c3, sendAll, if_pos c3]; rfl
  rw [if_neg c3, sendAll, if_neg c3]
  by_cases c4 : (sendCommand env 3 ("DATA".toList ++ CRLF)).1 = false
  · rw [if_pos c4, sendAll, if_pos c4]; rfl
  rw [if_neg c4, sendAll, if_neg c4]
  by_cases c5 : (sendCommand env 4
      (normalizeHeaders mailFrom emailData env.now ++ (CRLF ++ '.' :: CRLF))).1 = false
  · rw [if_pos c5, sendAll, if_pos c5]; rfl
  rw [if_neg c5, sendAll, if_neg c5]
  by_cases c6 : (sendCommand env 5 ("QUIT".toList ++ CRLF)).1 = false
  · rw [if_pos c6, sendAll, if_pos c6]; rfl
  rw [if_neg c6, sendAll, if_neg c6, sendAll]

theorem relayEmail_shape (env : RelayEnv) (mailFrom rcptTo emailData : Bytes) :
    (find rcptTo ['@'] = none ∧ relayEmail env mailFrom rcptTo emailData = some ⟨false, []⟩) ∨
      ∃ atPos domain, find rcptTo ['@'] = some atPos ∧ extractDomain rcptTo atPos = some domain ∧
        relayEmail env mailFrom rcptTo emailData =
          some (relayToDomain env domain mailFrom rcptTo emailData) := by
  unfold relayEmail
  cases h : find rcptTo ['@'] with
  | none => left; exact ⟨rfl, rfl⟩
  | some atPos =>
    right
    obtain ⟨d, hd⟩ := extractDomain_some rcptTo atPos h
    exact ⟨atPos, d, rfl, hd, by simp only [hd]⟩

theorem relayToDomain_recv (env : RelayEnv) (recv2 : Nat → Option Bytes)
    (domain mailFrom rcptTo emailData : Bytes)
    (h : ∀ k, recvFailed (recv2 k) = recvFailed (env.recv k)) :
    relayToDomain { env with recv := recv2 } domain mailFrom rcptTo emailData =
      relayToDomain env domain mailFrom rcptTo emailData := by
  rw [relayToDomain_sendAll, relayToDomain_sendAll]
  dsimp only
  rw [h 0, sendAll_recv env recv2 _ h 0]

theorem normalizeHeaders_both_absent (mailFrom body : Bytes) (now : Int)
    (hfrom : ¬ "From:".toList <:+: body ∧ ¬ "from:".toList <:+: body)
    (hid : ¬ "Message-ID:".toList <:+: "From: ".toList ++ mailFrom ++ CRLF ++ body ∧
      ¬ "message-id:".toList <:+: "From: ".toList ++ mailFrom ++ CRLF ++ body) :
    normalizeHeaders mailFrom body now =
      "Message-ID: ".toList ++ ("<".toList ++ to_string now ++ ".relay@localhost>".toList) ++ CRLF ++
        ("From: ".toList ++ mailFrom ++ CRLF ++ body) := by
  have h1 : find body "From:".toList = none ∧ find body "from:".toList = none := by
    rw [find_eq_none_iff, find_eq_none_iff]; exact hfrom
  have h2 : find ("From: ".toList ++ mailFrom ++ CRLF ++ body) "Message-ID:".toList = none ∧
      find ("From: ".toList ++ mailFrom ++ CRLF ++ body) "message-id:".toList = none := by
    rw [find_eq_none_iff, find_eq_none_iff]; exact hid
  unfold normalizeHeaders
  dsimp only
  rw [if_pos h1, if_pos h2]

theorem singleton_isInfix_iff (c : Char) (l : Bytes) : [c] <:+: l ↔ c ∈ l := by
  constructor
  · rintro ⟨s, t, h⟩
    rw [← h]
    simp
  · intro h
    obtain ⟨s, t, h2⟩ := List.append_of_mem h
    exact ⟨s, t, by rw [h2]; simp⟩

theorem findAt_single_none (c : Char) (l : Bytes) (i : Nat) (h : c ∉ l) :
    findAt [c] l i = none := by
  induction l generalizing i with
  | nil => simp [findAt]
  | cons x xs ih =>
    have hx : c ≠ x := fun e => h (e ▸ List.mem_cons_self _ _)
    have hxs : c ∉ xs := fun e => h (List.mem_cons_of_mem _ e)
    rw [findAt, if_neg (by simp [hx]), ih (i + 1) hxs]

theorem findAt_single_some (c : Char) (pre tail : Bytes) (i : Nat) (h : c ∉ pre) :
    findAt [c] (pre ++ c :: tail) i = some (i + pre.length) := by
  induction pre generalizing i with
  | nil => simp [findAt]
  | cons x xs ih =>
    have hx : c ≠ x := fun e => h (e ▸ List.mem_cons_self _ _)
    have hxs : c ∉ xs := fun e => h (List.mem_cons_of_mem _ e)
    rw [List.cons_append, findAt, if_neg (by simp [hx]), ih (i + 1) hxs]
    simp only [List.length_cons]
    congr 1
    omega

theorem extractDomain_split (pre d rest : Bytes) (hpre : '@' ∉ pre) (hd : '>' ∉ d)
    (hrest : rest = [] ∨ ∃ r, rest = '>' :: r) :
    find (pre ++ '@' :: (d ++ rest)) ['@'] = some pre.length ∧
      extractDomain (pre ++ '@' :: (d ++ rest)) pre.length = some d := by
  have hfind : find (pre ++ '@' :: (d ++ rest)) ['@'] = some pre.length := by
    rw [find_eq_findAt, findAt_single_some '@' pre (d ++ rest) 0 hpre, Nat.zero_add]
  refine ⟨hfind, ?_⟩
  have hlen : pre.length + 1 ≤ (pre ++ '@' :: (d ++ rest)).length := by
    simp only [List.length_append, List.length_cons]; omega
  have hlen0 : pre.length ≤ (pre ++ '@' :: (d ++ rest)).length := by omega
  have hdrop : (pre ++ '@' :: (d ++ rest)).drop (pre.length + 1) = d ++ rest := by
    rw [List.drop_append_eq_append_drop]
    simp
  have hdrop0 : (pre ++ '@' :: (d ++ rest)).drop pre.length = '@' :: (d ++ rest) := by
    rw [List.drop_append_eq_append_drop]
    simp
  have hat : '>' ∉ '@' :: d := by
    intro hmem
    rcases List.mem_cons.mp hmem with h | h
    · exact absurd h (by decide)
    · exact hd h
  unfold extractDomain findFrom
  rw [if_pos hlen0, hdrop0]
  rcases hrest with hr | ⟨r, hr⟩
  · have hnone : findAt ['>'] ('@' :: (d ++ rest)) pre.length = none := by
      rw [hr, List.append_nil]
      exact findAt_single_none '>' _ _ hat
    rw [hnone]
    dsimp only
    rw [substr, if_pos hlen, hdrop, hr, List.append_nil]
  · have hsome : findAt ['>'] ('@' :: (d ++ rest)) pre.length =
        some (pre.length + (d.length + 1)) := by
      rw [hr]
      exact findAt_single_some '>' ('@' :: d) r pre.length hat
    rw [hsome]
    dsimp only
    rw [substrN, if_pos hlen, hdrop]
    have e : pre.length + (d.length + 1) - pre.length - 1 = d.length := by omega
    rw [e, List.take_left']
    rfl

theorem relayToDomain_netUp (domain mailFrom rcptTo emailData : Bytes) :
    (relayToDomain (netUp 0) domain mailFrom rcptTo emailData).ok = true := by
  rw [relayToDomain_sendAll]
  have hmx : getMxRecord (netUp 0).dnsQuery domain = "B".toList := rfl
  rw [if_neg (by rw [hmx]; decide)]
  apply (sendAll_ok (netUp 0) _ 0).mpr
  intro i cmd _
  exact ⟨rfl, rfl⟩

/-! ## The header insertion and the relay, claim by claim -/

/-- C11 at a body that has its headers in other spellings, `FROM:` and
`Message-Id:`: the search knows the spellings `From:`, `from:`, `Message-ID:` and
`message-id:` only, so both headers are prepended again. -/
theorem normalizeHeaders_other_spellings :
    normalizeHeaders "<a@x.com>".toList
        "FROM: Ann <a@x.com>\r\nMessage-Id: <1@x.com>\r\n\r\nHi\r\n".toList 1700000000 =
      "Message-ID: <1700000000.relay@localhost>\r\nFrom: <a@x.com>\r\nFROM: Ann <a@x.com>\r\nMessage-Id: <1@x.com>\r\n\r\nHi\r\n".toList := by
  decide

/-- C12 at the sender `<message-id:@x.com>` and the body `Hello`: the test for
`Message-ID:` runs on the body with the new `From:` line in front, finds
`message-id:` inside the sender and prepends no Message-ID line. -/
theorem normalizeHeaders_sender_hides_id :
    normalizeHeaders "<message-id:@x.com>".toList "Hello\r\n".toList 1700000000 =
        "From: <message-id:@x.com>\r\nHello\r\n".toList ∧
      normalizeHeaders "<message-id:@x.com>".toList "Hello\r\n".toList 1700000000 ≠
        "Message-ID: <".toList ++ to_string 1700000000 ++ ".relay@localhost>".toList ++ CRLF ++
          ("From: ".toList ++ "<message-id:@x.com>".toList ++ CRLF ++ "Hello\r\n".toList) := by
  decide

/-- C13: two transport behaviours that differ only in the bytes of the replies
(every read fails in the one exactly when it fails in the other) make
`relayEmail` send the same commands and return the same result. -/
theorem relay_ignores_replies (env : RelayEnv) (recv2 : Nat → Option Bytes)
    (mailFrom rcptTo emailData : Bytes)
    (hsame : ∀ k, recvFailed (recv2 k) = recvFailed (env.recv k)) :
    relayEmail { env with recv := recv2 } mailFrom rcptTo emailData =
      relayEmail env mailFrom rcptTo emailData := by
  unfold relayEmail
  cases find rcptTo ['@'] with
  | none => rfl
  | some atPos =>
    dsimp only
    cases extractDomain rcptTo atPos with
    | none => rfl
    | some domain =>
      dsimp only
      rw [relayToDomain_recv env recv2 domain mailFrom rcptTo emailData hsame]

theorem relay_ignores_replies_witness :
    (∀ k, recvFailed (netRejecting.recv k) = recvFailed ((netUp 0).recv k)) ∧
      netRejecting.recv 3 = some "550 No such user\r\n".toList ∧
      relayEmail { netUp 0 with recv := netRejecting.recv } "<a@x.com>".toList "<b@y.com>".toList
          "Hello\r\n".toList =
        relayEmail (netUp 0) "<a@x.com>".toList "<b@y.com>".toList "Hello\r\n".toList ∧
      (relayEmail netRejecting "<a@x.com>".toList "<b@y.com>".toList "Hello\r\n".toList).map
          (fun r => r.ok) = some true :=
  have h : ∀ k, recvFailed (netRejecting.recv k) = recvFailed ((netUp 0).recv k) := by
    intro k
    by_cases hk : k = 3
    · subst hk; decide
    · simp [netRejecting, netUp, hk]
  ⟨h, by decide,
    relay_ignores_replies (netUp 0) netRejecting.recv "<a@x.com>".toList "<b@y.com>".toList
      "Hello\r\n".toList h,
    by decide⟩

/-- C14: when `rcptTo` has an `@` and resolution, socket, address lookup, connect,
every send and every read succeed, `relayEmail` reports success and what it
sent is, in this order, `HELO localhost`, `MAIL FROM:` with the sender,
`RCPT TO:` with the recipient, `DATA`, the normalised body followed by CRLF `.`
CRLF, and `QUIT`, each ended by CRLF; each of the six is sent by one call of
`sendCommand`, which sends it and reads one reply. -/
theorem relay_command_sequence (env : RelayEnv) (mailFrom rcptTo emailData : Bytes)
    (hat : find rcptTo ['@'] ≠ none)
    (hmx : ∀ atPos domain, find rcptTo ['@'] = some atPos →
      extractDomain rcptTo atPos = some domain →
      getMxRecord env.dnsQuery domain ≠ [] ∧
        env.getaddrinfo (getMxRecord env.dnsQuery domain) = true)
    (hsocket : env.socket = true) (hconnect : env.connect = true)
    (hsend : ∀ k cmd, env.send k cmd = true) (hrecv : ∀ k, recvFailed (env.recv k) = false) :
    relayEmail env mailFrom rcptTo emailData =
        some ⟨true,
          ["HELO localhost".toList ++ CRLF, "MAIL FROM:".toList ++ mailFrom ++ CRLF,
           "RCPT TO:".toList ++ rcptTo ++ CRLF, "DATA".toList ++ CRLF,
           normalizeHeaders mailFrom emailData env.now ++ (CRLF ++ '.' :: CRLF),
           "QUIT".toList ++ CRLF]⟩ ∧
      ∀ k cmd, sendCommand env k cmd = (true, [cmd]) := by
  have hcmd : ∀ k cmd, sendCommand env k cmd = (true, [cmd]) := by
    intro k cmd
    unfold sendCommand
    rw [if_neg (by simp [hsend k cmd]), if_neg (by simp [hrecv (k + 1)])]
  refine ⟨?_, hcmd⟩
  rcases relayEmail_shape env mailFrom rcptTo emailData with ⟨hnone, -⟩ |
      ⟨atPos, domain, hfind, hdom, hrel⟩
  · exact absurd hnone hat
  · obtain ⟨h1, h2⟩ := hmx atPos domain hfind hdom
    rw [hrel, relayToDomain_sendAll]
    have hpre : ¬ (getMxRecord env.dnsQuery domain = [] ∨ env.socket = false ∨
        env.getaddrinfo (getMxRecord env.dnsQuery domain) = false ∨ env.connect = false ∨
        recvFailed (env.recv 0) = true) := by
      simp [h1, h2, hsocket, hconnect, hrecv 0]
    rw [if_neg hpre]
    have hok : (sendAll env 0 (commandSequence mailFrom rcptTo emailData env.now)).1 = true :=
      (sendAll_ok env _ 0).mpr fun i cmd _ => ⟨hsend _ cmd, hrecv _⟩
    rw [hok, sendAll_all env _ 0 hok]
    rfl

theorem relay_command_sequence_witness :
    find "<b@y.com>".toList ['@'] ≠ none ∧
      relayEmail (netUp 0) "<a@x.com>".toList "<b@y.com>".toList "Hello\r\n".toList =
        some ⟨true,
          ["HELO localhost\r\n".toList, "MAIL FROM:<a@x.com>\r\n".toList,
           "RCPT TO:<b@y.com>\r\n".toList, "DATA\r\n".toList,
           "Message-ID: <1700000000.relay@localhost>\r\nFrom: <a@x.com>\r\nHello\r\n\r\n.\r\n".toList,
           "QUIT\r\n".toList]⟩ :=
  ⟨by decide,
    (relay_command_sequence (netUp 0) "<a@x.com>".toList "<b@y.com>".toList "Hello\r\n".toList
      (by decide) (fun _ d _ _ =>
        ⟨(show getMxRecord (netUp 0).dnsQuery d = "B".toList from rfl).trans_ne (by decide), rfl⟩)
      rfl rfl (fun _ _ => rfl)
      (fun _ => rfl)).1.trans (by decide)⟩

theorem sendAll_query (env : RelayEnv) (q2 : Bytes → Int × List DnsRecord) (cmds : List Bytes) :
    ∀ k, sendAll { env with dnsQuery := q2 } k cmds = sendAll env k cmds := by
  induction cmds with
  | nil => intro k; rfl
  | cons c cs ih =>
    intro k
    rw [sendAll, sendAll, ih (k + 1)]
    rfl

theorem relayToDomain_query (env : RelayEnv) (q2 : Bytes → Int × List DnsRecord)
    (domain mailFrom rcptTo emailData : Bytes)
    (h : q2 (c_str domain) = env.dnsQuery (c_str domain)) :
    relayToDomain { env with dnsQuery := q2 } domain mailFrom rcptTo emailData =
      relayToDomain env domain mailFrom rcptTo emailData := by
  have hget : getMxRecord q2 domain = getMxRecord env.dnsQuery domain := by
    unfold getMxRecord
    rw [h]
  rw [relayToDomain_sendAll, relayToDomain_sendAll]
  dsimp only
  rw [hget, sendAll_query env q2 _ 0]

theorem getMxRecord_ne_nil (q : Bytes → Int × List DnsRecord) (domain : Bytes) :
    getMxRecord q domain ≠ [] ↔
      (q (c_str domain)).1 = 0 ∧
        popTrailingDot (mxLoop (q (c_str domain)).2 [] 0xFFFFFFFF) ≠ [] := by
  unfold getMxRecord
  by_cases hs : (q (c_str domain)).1 = 0
  · rw [if_neg (by simp [hs])]
    simp [hs]
  · rw [if_pos hs]
    simp [hs]

theorem relayToDomain_netUp_query (q : Bytes → Int × List DnsRecord)
    (domain mailFrom rcptTo emailData : Bytes) :
    (relayToDomain { netUp 0 with dnsQuery := q } domain mailFrom rcptTo emailData).ok = true ↔
      getMxRecord q domain ≠ [] := by
  rw [relayToDomain_sendAll]
  have hok : (sendAll { netUp 0 with dnsQuery := q } 0
      (commandSequence mailFrom rcptTo emailData ({ netUp 0 with dnsQuery := q } : RelayEnv).now)).1
        = true := by
    apply (sendAll_ok _ _ 0).mpr
    intro i cmd _
    exact ⟨rfl, rfl⟩
  by_cases hm : getMxRecord q domain = []
  · rw [if_pos (Or.inl hm)]
    simp [hm]
  · have hpre : ¬ (getMxRecord ({ netUp 0 with dnsQuery := q } : RelayEnv).dnsQuery domain = [] ∨
        ({ netUp 0 with dnsQuery := q } : RelayEnv).socket = false ∨
        ({ netUp 0 with dnsQuery := q } : RelayEnv).getaddrinfo
          (getMxRecord ({ netUp 0 with dnsQuery := q } : RelayEnv).dnsQuery domain) = false ∨
        ({ netUp 0 with dnsQuery := q } : RelayEnv).connect = false ∨
        recvFailed (({ netUp 0 with dnsQuery := q } : RelayEnv).recv 0) = true) := by
      rintro (h | h | h | h | h)
      · exact hm h
      · exact absurd (show true = false from h) (by decide)
      · exact absurd (show true = false from h) (by decide)
      · exact absurd (show true = false from h) (by decide)
      · exact absurd (show false = true from h) (by decide)
    rw [if_neg hpre]
    simp [hm, hok]

theorem c_str_of_no_nul (d : Bytes) (h : Char.ofNat 0 ∉ d) : c_str d = d := by
  unfold c_str
  rw [List.takeWhile_eq_self_iff]
  intro c hc
  have : c ≠ Char.ofNat 0 := fun e => h (e ▸ hc)
  simpa using this

/-- C15 (as amended): `relayEmail` fails whatever the resolver and the network
would do exactly when `rcptTo` has no `@`.  When `rcptTo` is `pre @ d rest` with
no `@` in `pre`, no `>` in `d`, and `rest` empty or starting with `>`, the
domain extracted is `d` and the name the resolver is asked for is `d` up to its
first NUL byte (`d` itself when it has none): the answers of the resolver for
other names do not matter, a failing answer for this name makes the relay fail
before anything is sent, and on a network where all else succeeds the relay
succeeds exactly when the answer for this name gives a host. -/
theorem relay_domain (mailFrom rcptTo emailData : Bytes) :
    ((∀ env, relayEmail env mailFrom rcptTo emailData = some ⟨false, []⟩) ↔
        find rcptTo ['@'] = none) ∧
      (find rcptTo ['@'] = none ↔ '@' ∉ rcptTo) ∧
      ∀ (env : RelayEnv) (pre d rest : Bytes), rcptTo = pre ++ '@' :: (d ++ rest) → '@' ∉ pre →
        '>' ∉ d → (rest = [] ∨ ∃ r, rest = '>' :: r) →
        relayEmail env mailFrom rcptTo emailData =
            some (relayToDomain env d mailFrom rcptTo emailData) ∧
          (Char.ofNat 0 ∉ d → c_str d = d) ∧
          (∀ q2 : Bytes → Int × List DnsRecord, q2 (c_str d) = env.dnsQuery (c_str d) →
            relayEmail { env with dnsQuery := q2 } mailFrom rcptTo emailData =
              relayEmail env mailFrom rcptTo emailData) ∧
          ((env.dnsQuery (c_str d)).1 ≠ 0 →
            relayEmail env mailFrom rcptTo emailData = some ⟨false, []⟩) ∧
          ∀ q : Bytes → Int × List DnsRecord,
            ((relayEmail { netUp 0 with dnsQuery := q } mailFrom rcptTo emailData).map
                (fun r => r.ok) = some true ↔
              (q (c_str d)).1 = 0 ∧
                popTrailingDot (mxLoop (q (c_str d)).2 [] 0xFFFFFFFF) ≠ []) := by
  refine ⟨⟨?_, ?_⟩, ?_, ?_⟩
  · intro hall
    rcases relayEmail_shape (netUp 0) mailFrom rcptTo emailData with ⟨hnone, -⟩ |
        ⟨atPos, domain, -, -, hrel⟩
    · exact hnone
    · have h1 := hall (netUp 0)
      rw [hrel] at h1
      have h2 := relayToDomain_netUp domain mailFrom rcptTo emailData
      simp only [Option.some.injEq] at h1
      rw [h1] at h2
      exact absurd h2 (by simp)
  · intro hnone env
    rcases relayEmail_shape env mailFrom rcptTo emailData with ⟨-, hrel⟩ | ⟨atPos, _, hfind, -, -⟩
    · exact hrel
    · rw [hnone] at hfind
      exact absurd hfind (by simp)
  · rw [find_eq_none_iff]
    constructor
    · intro h hmem
      exact h ((singleton_isInfix_iff _ _).mpr hmem)
    · intro h hinf
      exact h ((singleton_isInfix_iff _ _).mp hinf)
  · intro env pre d rest hsplit hpre hd hrest
    obtain ⟨hfind, hdom⟩ := extractDomain_split pre d rest hpre hd hrest
    rw [← hsplit] at hfind hdom
    have hrel : ∀ e : RelayEnv, relayEmail e mailFrom rcptTo emailData =
        some (relayToDomain e d mailFrom rcptTo emailData) := by
      intro e
      unfold relayEmail
      rw [hfind]
      dsimp only
      rw [hdom]
    refine ⟨hrel env, c_str_of_no_nul d, ?_, ?_, ?_⟩
    · intro q2 hq
      rw [hrel, hrel, relayToDomain_query env q2 d mailFrom rcptTo emailData hq]
    · intro hstatus
      have hm : getMxRecord env.dnsQuery d = [] := by
        unfold getMxRecord
        rw [if_pos hstatus]
      rw [hrel, relayToDomain_sendAll, if_pos (Or.inl hm)]
    · intro q
      rw [hrel]
      simp only [Option.map_some', Option.some.injEq]
      rw [relayToDomain_netUp_query, getMxRecord_ne_nil]

theorem relay_domain_witness :
    c_str "y.com".toList = "y.com".toList ∧
      relayEmail netOnlyY "<a@x.com>".toList "<b@y.com>".toList "Hello\r\n".toList =
        some (relayToDomain netOnlyY "y.com".toList "<a@x.com>".toList "<b@y.com>".toList
          "Hello\r\n".toList) ∧
      relayEmail netOnlyY "<a@x.com>".toList "b@y.com".toList "Hello\r\n".toList =
        some (relayToDomain netOnlyY "y.com".toList "<a@x.com>".toList "b@y.com".toList
          "Hello\r\n".toList) ∧
      (relayEmail netOnlyY "<a@x.com>".toList "<b@y.com>".toList "Hello\r\n".toList).map
          (fun r => r.ok) = some true ∧
      (relayEmail netOnlyY "<a@x.com>".toList "b@y.com".toList "Hello\r\n".toList).map
          (fun r => r.ok) = some true :=
  ⟨by decide,
   ((relay_domain "<a@x.com>".toList "<b@y.com>".toList "Hello\r\n".toList).2.2 netOnlyY
      "<b".toList "y.com".toList ">".toList (by decide) (by decide) (by decide)
      (Or.inr ⟨[], by decide⟩)).1,
   ((relay_domain "<a@x.com>".toList "b@y.com".toList "Hello\r\n".toList).2.2 netOnlyY
      "b".toList "y.com".toList [] (by decide) (by decide) (by decide) (Or.inl rfl)).1,
   by decide, by decide⟩

/-- C15 (as stated) fails when the domain has a NUL byte: in `<b@y.com` NUL `>` the
text between `@` and `>` is `y.com` NUL, a name for which the resolver of
`netOnlyY` fails, and yet the relay succeeds, because the query is made for
`y.com`, the text up to the NUL. -/
theorem nul_cuts_resolved_name :
    extractDomain ("<b@y.com".toList ++ [Char.ofNat 0, '>']) 2 =
        some ("y.com".toList ++ [Char.ofNat 0]) ∧
      (netOnlyY.dnsQuery ("y.com".toList ++ [Char.ofNat 0])).1 ≠ 0 ∧
      c_str ("y.com".toList ++ [Char.ofNat 0]) = "y.com".toList ∧
      (relayEmail netOnlyY "<a@x.com>".toList ("<b@y.com".toList ++ [Char.ofNat 0, '>'])
          "Hello\r\n".toList).map (fun r => r.ok) = some true := by
  decide

theorem cons_isPrefix_cons (a b : Char) (l1 l2 : Bytes) (h : a :: l1 <+: b :: l2) : a = b := by
  obtain ⟨u, hu⟩ := h
  simp only [List.cons_append, List.cons.injEq] at hu
  exact hu.1

theorem reply_ne_500 (s1 s : Session) (b : Bytes) (hb : b ≠ reply500) :
    some (s1, [Event.reply b]) ≠ some (s, [Event.reply reply500]) := by
  intro h
  simp only [Option.some.injEq, Prod.mk.injEq, List.cons.injEq, Event.reply.injEq,
    and_true] at h
  exact hb h.2

theorem processLine_command_body (net : Nat → RelayEnv) (s s1 : Session) (line : Bytes)
    (ev : List Event) (hmode : s.dataMode = false)
    (h : processLine net s line = some (s1, ev)) :
    s1.emailData = s.emailData ∨ s1.emailData = [] := by
  unfold processLine at h
  rw [if_neg (by simp [hmode])] at h
  dsimp only at h
  split_ifs at h
  · simp only [Option.some.injEq, Prod.mk.injEq] at h
    rw [← h.1]; exact Or.inl rfl
  · cases ha : substr line 10 with
    | none => rw [ha] at h; exact absurd h (by simp)
    | some a =>
      rw [ha] at h
      simp only [Option.some.injEq, Prod.mk.injEq] at h
      rw [← h.1]; exact Or.inl rfl
  · cases ha : substr line 8 with
    | none => rw [ha] at h; exact absurd h (by simp)
    | some a =>
      rw [ha] at h
      simp only [Option.some.injEq, Prod.mk.injEq] at h
      rw [← h.1]; exact Or.inl rfl
  · simp only [Option.some.injEq, Prod.mk.injEq] at h
    rw [← h.1]; exact Or.inl rfl
  · simp only [Option.some.injEq, Prod.mk.injEq] at h
    rw [← h.1]; exact Or.inl rfl
  · simp only [Option.some.injEq, Prod.mk.injEq] at h
    rw [← h.1]; exact Or.inr rfl
  · simp only [Option.some.injEq, Prod.mk.injEq] at h
    rw [← h.1]; exact Or.inl rfl
  · simp only [Option.some.injEq, Prod.mk.injEq] at h
    rw [← h.1]; exact Or.inl rfl
  · simp only [Option.some.injEq, Prod.mk.injEq] at h
    rw [← h.1]; exact Or.inl rfl

/-- C16 (as amended): a line processed in command mode, and the line `.` in
data-capture mode, write exactly one reply; any other line in data-capture mode
is added to the body and writes no reply. -/
theorem replies_per_line (net : Nat → RelayEnv) (s : Session) (line : Bytes) :
    ∃ r, processLine net s line = some r ∧
      replyCount r.2 = if s.dataMode = true ∧ line ≠ ['.'] then 0 else 1 := by
  by_cases hd : s.dataMode = true
  · by_cases hl : line = ['.']
    · obtain ⟨r, hr⟩ := relayEmail_some (net s.relayAttempts) s.mailFrom s.rcptTo s.emailData
      rw [if_neg (by simp [hl])]
      unfold processLine
      rw [if_pos hd, if_pos hl, hr]
      exact ⟨_, rfl, rfl⟩
    · rw [if_pos ⟨hd, hl⟩, processLine_capture net s line hd hl]
      exact ⟨_, rfl, rfl⟩
  · rw [if_neg (by simp [hd])]
    unfold processLine
    rw [if_neg hd]
    dsimp only
    split_ifs
    all_goals first
      | (rw [substr_when_matched line "RCPT TO:".toList 8 rfl (by assumption)]; exact ⟨_, rfl, rfl⟩)
      | (rw [substr_when_matched line "MAIL FROM:".toList 10 rfl (by assumption)]
         exact ⟨_, rfl, rfl⟩)
      | exact ⟨_, rfl, rfl⟩

/-- C16 (as stated) fails in data-capture mode: the line `Hello` is added to the
body and no reply is written. -/
theorem captured_line_writes_no_reply :
    processLine netDown capturing "Hello".toList =
        some ({ capturing with emailData := "Hello\r\nHello\r\n".toList }, []) ∧
      (processLine netDown capturing "Hello".toList).map (fun r => replyCount r.2) ≠ some 1 := by
  decide

/-- C18: the per-line step always returns: no `substr` is out of range.
Upper-casing keeps the length; in command mode a line whose upper-casing starts
with `MAIL FROM:` has at least 10 characters and stores its characters from
position 10 on, in their original case, as `mailFrom`; one whose upper-casing
starts with `RCPT TO:` has at least 8 and stores those from position 8 on as
`rcptTo`. -/
theorem per_line_step_total (net : Nat → RelayEnv) (s : Session) (line : Bytes) :
    (∃ r, processLine net s line = some r) ∧
      (line.map toupper).length = line.length ∧
      (s.dataMode = false → "MAIL FROM:".toList <+: line.map toupper →
        10 ≤ line.length ∧ substr line 10 = some (line.drop 10) ∧
          processLine net s line =
            some ({ s with mailFrom := line.drop 10 }, [Event.reply reply250OK])) ∧
      (s.dataMode = false → "RCPT TO:".toList <+: line.map toupper →
        8 ≤ line.length ∧ substr line 8 = some (line.drop 8) ∧
          processLine net s line =
            some ({ s with rcptTo := line.drop 8 }, [Event.reply reply250OK])) := by
  refine ⟨processLine_some net s line, List.length_map _ _, ?_, ?_⟩
  · intro hmode hpre
    have hlen : 10 ≤ line.length := by
      have := hpre.length_le
      simpa using this
    have hfind := (find_zero_iff _ _).mpr hpre
    have hsub := substr_when_matched line "MAIL FROM:".toList 10 rfl hfind
    obtain ⟨t, ht⟩ := hpre
    have hH : ¬ (find (line.map toupper) "HELO".toList = some 0 ∨
        find (line.map toupper) "EHLO".toList = some 0) := by
      rw [find_zero_iff, find_zero_iff, ← ht]
      rintro (h | h)
      · exact absurd (cons_isPrefix_cons 'H' 'M' _ _ h) (by decide)
      · exact absurd (cons_isPrefix_cons 'E' 'M' _ _ h) (by decide)
    refine ⟨hlen, hsub, ?_⟩
    unfold processLine
    rw [if_neg (by simp [hmode])]
    dsimp only
    rw [if_neg hH, if_pos hfind, hsub]
  · intro hmode hpre
    have hlen : 8 ≤ line.length := by
      have := hpre.length_le
      simpa using this
    have hfind := (find_zero_iff _ _).mpr hpre
    have hsub := substr_when_matched line "RCPT TO:".toList 8 rfl hfind
    obtain ⟨t, ht⟩ := hpre
    have hH : ¬ (find (line.map toupper) "HELO".toList = some 0 ∨
        find (line.map toupper) "EHLO".toList = some 0) := by
      rw [find_zero_iff, find_zero_iff, ← ht]
      rintro (h | h)
      · exact absurd (cons_isPrefix_cons 'H' 'R' _ _ h) (by decide)
      · exact absurd (cons_isPrefix_cons 'E' 'R' _ _ h) (by decide)
    have hM : ¬ find (line.map toupper) "MAIL FROM:".toList = some 0 := by
      rw [find_zero_iff, ← ht]
      intro h
      exact absurd (cons_isPrefix_cons 'M' 'R' _ _ h) (by decide)
    refine ⟨hlen, hsub, ?_⟩
    unfold processLine
    rw [if_neg (by simp [hmode])]
    dsimp only
    rw [if_neg hH, if_neg hM, if_pos hfind, hsub]

theorem per_line_step_total_witness :
    (∃ r, processLine netDown initial "MAIL".toList = some r) ∧
      (∃ r, processLine netDown initial [] = some r) ∧
      processLine netDown initial "mail From:<A@x.com>".toList =
        some ({ initial with mailFrom := "<A@x.com>".toList }, [Event.reply reply250OK]) :=
  ⟨(per_line_step_total netDown initial "MAIL".toList).1,
   (per_line_step_total netDown initial []).1,
   ((per_line_step_total netDown initial "mail From:<A@x.com>".toList).2.2.1 rfl
      (by decide)).2.2.trans (by decide)⟩

/-- C19: in command mode a line is answered with `500 Unrecognized command`, the
state unchanged, exactly when its upper-casing neither starts with `HELO`,
`EHLO`, `MAIL FROM:` or `RCPT TO:` nor is equal to `DATA`, `RSET`, `NOOP` or
`QUIT`. -/
theorem unrecognized_iff (net : Nat → RelayEnv) (s : Session) (line : Bytes)
    (hmode : s.dataMode = false) :
    processLine net s line = some (s, [Event.reply reply500]) ↔
      ¬ "HELO".toList <+: line.map toupper ∧ ¬ "EHLO".toList <+: line.map toupper ∧
        ¬ "MAIL FROM:".toList <+: line.map toupper ∧ ¬ "RCPT TO:".toList <+: line.map toupper ∧
        line.map toupper ≠ "DATA".toList ∧ line.map toupper ≠ "RSET".toList ∧
        line.map toupper ≠ "NOOP".toList ∧ line.map toupper ≠ "QUIT".toList := by
  have n1 : reply250Hello ≠ reply500 := by decide
  have n2 : reply250OK ≠ reply500 := by decide
  have n3 : reply503 ≠ reply500 := by decide
  have n4 : reply354 ≠ reply500 := by decide
  have n5 : reply221 ≠ reply500 := by decide
  unfold processLine
  rw [if_neg (by simp [hmode])]
  dsimp only
  split_ifs with h1 h2 h3 h4 h5 h6 h7 h8
  · constructor
    · intro h; exact absurd h (reply_ne_500 _ _ _ n1)
    · rintro ⟨a, b, -⟩
      rcases h1 with h | h
      · exact absurd ((find_zero_iff _ _).mp h) a
      · exact absurd ((find_zero_iff _ _).mp h) b
  · rw [substr_when_matched line "MAIL FROM:".toList 10 rfl h2]
    constructor
    · intro h; exact absurd h (reply_ne_500 _ _ _ n2)
    · rintro ⟨-, -, c, -⟩
      exact absurd ((find_zero_iff _ _).mp h2) c
  · rw [substr_when_matched line "RCPT TO:".toList 8 rfl h3]
    constructor
    · intro h; exact absurd h (reply_ne_500 _ _ _ n2)
    · rintro ⟨-, -, -, d, -⟩
      exact absurd ((find_zero_iff _ _).mp h3) d
  · constructor
    · intro h; exact absurd h (reply_ne_500 _ _ _ n3)
    · rintro ⟨-, -, -, -, e, -⟩
      exact absurd h4 e
  · constructor
    · intro h; exact absurd h (reply_ne_500 _ _ _ n4)
    · rintro ⟨-, -, -, -, e, -⟩
      exact absurd h4 e
  · constructor
    · intro h; exact absurd h (reply_ne_500 _ _ _ n2)
    · rintro ⟨-, -, -, -, -, f, -⟩
      exact absurd h6 f
  · constructor
    · intro h; exact absurd h (reply_ne_500 _ _ _ n2)
    · rintro ⟨-, -, -, -, -, -, g, -⟩
      exact absurd h7 g
  · constructor
    · intro h; exact absurd h (reply_ne_500 _ _ _ n5)
    · rintro ⟨-, -, -, -, -, -, -, k⟩
      exact absurd h8 k
  · constructor
    · intro _
      refine ⟨fun c => h1 (Or.inl ((find_zero_iff _ _).mpr c)),
        fun c => h1 (Or.inr ((find_zero_iff _ _).mpr c)),
        fun c => h2 ((find_zero_iff _ _).mpr c), fun c => h3 ((find_zero_iff _ _).mpr c),
        h4, h6, h7, h8⟩
    · intro _; rfl

theorem unrecognized_iff_witness :
    initial.dataMode = false ∧
      processLine netDown initial "DATA ".toList = some (initial, [Event.reply reply500]) ∧
      processLine netDown initial "QUIT now".toList = some (initial, [Event.reply reply500]) ∧
      processLine netDown initial "helo".toList ≠ some (initial, [Event.reply reply500]) :=
  ⟨rfl,
   (unrecognized_iff netDown initial "DATA ".toList rfl).mpr (by decide),
   (unrecognized_iff netDown initial "QUIT now".toList rfl).mpr (by decide),
   fun h => absurd ((unrecognized_iff netDown initial "helo".toList rfl).mp h) (by decide)⟩

/-- C20: in every session state reached from the initial one, command mode comes
with an empty body, and the body is still empty after any further line processed
in command mode, whatever that line is. -/
theorem command_mode_body_empty (net : Nat → RelayEnv) (s : Session) (hr : Reachable net s)
    (hmode : s.dataMode = false) :
    s.emailData = [] ∧
      ∀ line s1 ev, processLine net s line = some (s1, ev) → s1.emailData = [] := by
  have hbody : s.emailData = [] := (reachable_consistent net s hr).2 hmode
  refine ⟨hbody, ?_⟩
  intro line s1 ev hstep
  rcases processLine_command_body net s s1 line ev hmode hstep with h | h
  · rw [h, hbody]
  · exact h

theorem command_mode_body_empty_witness :
    Reachable netDown addressed ∧ addressed.dataMode = false ∧ addressed.emailData = [] ∧
      ∀ line s1 ev, processLine netDown addressed line = some (s1, ev) → s1.emailData = [] :=
  ⟨reachable_addressed, rfl, command_mode_body_empty netDown addressed reachable_addressed rfl⟩

end SMTP
